import Mathlib

/-!
Verification of the Orthotile tiling/stitching library.

Shallow embedding of `src/orthotile/utils.py` and `src/__init__.py`:
filenames are lists of characters, the on-disk tile folder is an
association list from filename to image content, and every operation of
the code (grid enumeration, channel tiling, channel merging, stitching,
cleanup, constructor validation) is a Lean function traced from the
Python source.
-/

namespace Orthotile

/-- A filename, as the list of its characters. -/
abbrev FName := List Char

/-- One decimal digit as a character (`str` of a digit in Python). -/
def digitCh (n : Nat) : Char :=
  match n with
  | 0 => '0' | 1 => '1' | 2 => '2' | 3 => '3' | 4 => '4'
  | 5 => '5' | 6 => '6' | 7 => '7' | 8 => '8' | _ => '9'

/-- Fuel-driven decimal printer (the fuel is an upper bound on the value,
so `natReprCore n n` always has enough fuel). -/
def natReprCore : Nat → Nat → List Char
  | 0, n => [digitCh (n % 10)]
  | fuel + 1, n =>
    if n < 10 then [digitCh n]
    else natReprCore fuel (n / 10) ++ [digitCh (n % 10)]

/-- Decimal representation of a natural number, as Python's `str(n)`. -/
def natRepr (n : Nat) : List Char := natReprCore n n

/-- Is a character a decimal digit? -/
def isDigitCh (c : Char) : Bool := 48 ≤ c.toNat && c.toNat ≤ 57

/-- Value of a string of digits (fold of `10*acc + digit`). -/
def parseNat (s : List Char) : Nat :=
  s.foldl (fun acc c => 10 * acc + (c.toNat - 48)) 0

/-- Python's `int(s)` on a token: succeeds only on a non-empty all-digit
token (a malformed token raises `ValueError`, modelled as `none`). -/
def parseNatQ (s : List Char) : Option Nat :=
  if s ≠ [] ∧ s.all isDigitCh then some (parseNat s) else none

/-- Python's `str.split(sep)` on a list of characters. -/
def splitChar (sep : Char) : List Char → List (List Char)
  | [] => [[]]
  | c :: cs =>
    match splitChar sep cs with
    | [] => [[]]
    | t :: ts => if c = sep then [] :: t :: ts else (c :: t) :: ts

/-- The `.tiff` extension used throughout `utils.py`. -/
def tiffExt : FName := ['.', 't', 'i', 'f', 'f']

/-- The filename `f"{pref}_{i}_{j}{ext}"` written by `tile_rgb` /
`tile_alpha` / `channels_to_RGBA` (`utils.py` lines 48, 62, 76). -/
def encodeName (pref : FName) (i j : Nat) (ext : FName) : FName :=
  pref ++ '_' :: natRepr i ++ '_' :: natRepr j ++ ext

/-- Decoding a tile filename, as `get_img_filelist` (`utils.py` lines
33–34) and `Stitcher.__init__` (`__init__.py` lines 175–176) do:
`int(name.split("_")[1])` and `int(name.split("_")[2].split(".")[0])`.
`none` models the `IndexError`/`ValueError` Python raises on a filename
that does not fit the scheme. -/
def decodeName (name : FName) : Option (Nat × Nat) :=
  let parts := splitChar '_' name
  match parts.get? 1, parts.get? 2 with
  | some p1, some p2 =>
    match parseNatQ p1, parseNatQ ((splitChar '.' p2).headI) with
    | some a, some b => some (a, b)
    | _, _ => none
  | _, _ => none

/-- The lexicographic comparison Python's `list.sort()` applies to a
list of `(row, col)` integer pairs. -/
def coordLE (p q : Nat × Nat) : Bool :=
  p.1 < q.1 || (p.1 = q.1 && p.2 ≤ q.2)

/-- Stable insertion used by `sortPairs`. -/
def insertSorted (x : Nat × Nat) : List (Nat × Nat) → List (Nat × Nat)
  | [] => [x]
  | y :: ys => if coordLE x y then x :: y :: ys else y :: insertSorted x ys

/-- Sorting model of Python's `list.sort()` on coordinate pairs
(insertion sort: same multiset, lexicographically ordered result). -/
def sortPairs : List (Nat × Nat) → List (Nat × Nat)
  | [] => []
  | x :: xs => insertSorted x (sortPairs xs)

/-- Python's `range(0, stop, step)` for a positive `step`. -/
def pyRange (stop step : Nat) : List Nat :=
  (List.range ((stop + step - 1) / step)).map (· * step)

/-- The tile grid `product(range(0, h - h % d, d), range(0, w - w % d, d))`
computed identically in `tile_rgb`/`tile_alpha` (`utils.py` lines 45, 59)
and in `Stitcher.__init__` (`__init__.py` lines 206–209): row-major pairs
`(i, j)` of top-left tile corners. -/
def grid (h w d : Nat) : List (Nat × Nat) :=
  (pyRange (h - h % d) d).flatMap fun i =>
    (pyRange (w - w % d) d).map fun j => (i, j)

/-- Image content stored in a tile file: a single-channel (`mode "L"`)
image or a four-channel RGBA image, as functions of (row, col). -/
inductive Img where
  | gray (t : Nat → Nat → Nat)
  | rgba (t : Nat → Nat → Nat × Nat × Nat × Nat)

/-- The tile output directory: an association list from filename to file
content, most recent write first (a write shadows an older file of the
same name exactly as overwriting does). -/
abbrev FS := List (FName × Img)

/-- Reading the current content of a file (first match = latest write). -/
def fsLookup (fs : FS) (n : FName) : Option Img :=
  match fs with
  | [] => none
  | (m, img) :: rest => if m = n then some img else fsLookup rest n

/-- `img.crop((j, i, j + d, i + d))` on a channel array: pixel `(y, x)` of
the crop is `arr (i + y) (j + x)` (PIL crop box is (left, upper, right,
lower) while the numpy array is indexed row first). -/
def crop (arr : Nat → Nat → Nat) (i j : Nat) : Nat → Nat → Nat :=
  fun y x => arr (i + y) (j + x)

/-- `ImageChops.invert(cropped).getbbox()` being non-`None`
(`utils.py` line 50): the inverted image `255 - p` has a non-zero pixel
somewhere in the `d × d` crop.  Subtraction is the `uint8` one, truncated
at zero. -/
def saveCond (t : Nat → Nat → Nat) (d : Nat) : Bool :=
  (List.range d).any fun y => (List.range d).any fun x =>
    decide (255 - t y x ≠ 0)

/-- `tile_rgb(arr, dir_out, d, pref)` (`utils.py` lines 42–51): crop every
grid cell of the `h × w` channel array and write
`{pref}_{i}_{j}.tiff` only when the inverted crop has a non-empty
bounding box. -/
def tile_rgb (arr : Nat → Nat → Nat) (h w d : Nat) (pref : FName) (fs : FS) : FS :=
  (grid h w d).foldl
    (fun fs p =>
      let t := crop arr p.1 p.2
      if saveCond t d then (encodeName pref p.1 p.2 tiffExt, .gray t) :: fs else fs)
    fs

/-- `tile_alpha(img_files, arr, dir_out, d, pref)` (`utils.py` lines
54–65): crop every grid cell but write `{pref}_{i}_{j}.tiff` only when
`(i, j)` is in the caller-supplied coordinate list, never looking at the
pixel content. -/
def tile_alpha (imgFiles : List (Nat × Nat)) (arr : Nat → Nat → Nat)
    (h w d : Nat) (pref : FName) (fs : FS) : FS :=
  (grid h w d).foldl
    (fun fs p =>
      if p ∈ imgFiles then
        (encodeName pref p.1 p.2 tiffExt, .gray (crop arr p.1 p.2)) :: fs
      else fs)
    fs

/-- `glob` match for the pattern `r*.tiff` (the `get_img_filelist`
default): name starts with `r`, ends with `.tiff`, and is long enough
that prefix and suffix do not overlap. -/
def matchRStar (name : FName) : Bool :=
  ['r'].isPrefixOf name && tiffExt.isSuffixOf name && 6 ≤ name.length

/-- `glob` match for `rgba*.tiff` (`Stitcher.__init__`, line 171). -/
def matchRgbaStarTiff (name : FName) : Bool :=
  (['r', 'g', 'b', 'a']).isPrefixOf name && tiffExt.isSuffixOf name && 9 ≤ name.length

/-- `glob` match for `rgba_*` (`Stitcher.stitch` cleanup, line 249). -/
def matchRgbaUnderscore (name : FName) : Bool :=
  (['r', 'g', 'b', 'a', '_']).isPrefixOf name

/-- `get_img_filelist(dir_out, pattern)` (`utils.py` lines 29–39): glob
the directory, decode `(row, col)` from every matching filename, sort.
`none` models the exception `int()` raises on a malformed name. -/
def get_img_filelist (fs : FS) (pat : FName → Bool) : Option (List (Nat × Nat)) :=
  (((fs.map Prod.fst).filter pat).mapM decodeName).map sortPairs

/-- Reading a file as a single-channel image: `none` when the file is
absent (Python `FileNotFoundError`) or is not a mode-`L` image. -/
def fsLookupGray (fs : FS) (n : FName) : Option (Nat → Nat → Nat) :=
  match fsLookup fs n with
  | some (.gray t) => some t
  | _ => none

/-- `Image.merge("RGBA", (r, g, b, a))`. -/
def mergeRGBA (r g b a : Nat → Nat → Nat) : Nat → Nat → Nat × Nat × Nat × Nat :=
  fun y x => (r y x, g y x, b y x, a y x)

/-- The error `channels_to_RGBA` raises: one of the four channel files
of a listed coordinate could not be opened. -/
inductive MergeError where
  | missingFile (name : FName)
deriving DecidableEq

/-- `channels_to_RGBA(img_files, dir_out)` (`utils.py` lines 68–79): for
every listed coordinate open the four channel files, merge them and
write `rgba_{i}_{j}.tiff`; a missing file aborts the whole run with the
raised error. -/
def channels_to_RGBA : List (Nat × Nat) → FS → Except MergeError FS
  | [], fs => .ok fs
  | (i, j) :: rest, fs =>
    match fsLookupGray fs (encodeName ['r'] i j tiffExt) with
    | none => .error (.missingFile (encodeName ['r'] i j tiffExt))
    | some r =>
      match fsLookupGray fs (encodeName ['g'] i j tiffExt) with
      | none => .error (.missingFile (encodeName ['g'] i j tiffExt))
      | some g =>
        match fsLookupGray fs (encodeName ['b'] i j tiffExt) with
        | none => .error (.missingFile (encodeName ['b'] i j tiffExt))
        | some b =>
          match fsLookupGray fs (encodeName ['a'] i j tiffExt) with
          | none => .error (.missingFile (encodeName ['a'] i j tiffExt))
          | some a =>
            channels_to_RGBA rest
              ((encodeName ['r', 'g', 'b', 'a'] i j tiffExt,
                .rgba (mergeRGBA r g b a)) :: fs)

/-- The wrapper `generate_tiles` puts around a merge failure
(`__init__.py` lines 118–124): `raise RuntimeError(str(e))`. -/
inductive TilerError where
  | runtimeError (inner : MergeError)
deriving DecidableEq

/-- `delete_file_safe(file_path)` (`utils.py` lines 82–90) under a
failure oracle `fails` telling which unlink calls raise: a raised
exception is caught and only logged, a missing file is no error
(`missing_ok=True`), so the function always returns a directory state. -/
def delete_file_safe (fails : FName → Bool) (fs : FS) (n : FName) : FS :=
  if fails n then fs else fs.filter (fun e => e.1 ≠ n)

/-- `delete_tiles(img_files, dir_out)` (`utils.py` lines 93–95): delete
`rgba_{i}_{j}.tiff` for every listed coordinate, each best-effort. -/
def delete_tiles (fails : FName → Bool) (files : List (Nat × Nat)) (fs : FS) : FS :=
  files.foldl
    (fun fs p => delete_file_safe fails fs (encodeName ['r', 'g', 'b', 'a'] p.1 p.2 tiffExt))
    fs

/-- `delete_channel_files(img_files, dir_out)` (`utils.py` lines
98–103): delete the four channel files of every listed coordinate. -/
def delete_channel_files (fails : FName → Bool) (files : List (Nat × Nat)) (fs : FS) : FS :=
  files.foldl
    (fun fs p =>
      let fs1 := delete_file_safe fails fs (encodeName ['r'] p.1 p.2 tiffExt)
      let fs2 := delete_file_safe fails fs1 (encodeName ['g'] p.1 p.2 tiffExt)
      let fs3 := delete_file_safe fails fs2 (encodeName ['b'] p.1 p.2 tiffExt)
      delete_file_safe fails fs3 (encodeName ['a'] p.1 p.2 tiffExt))
    fs

/-- The oracle of a run in which no unlink call raises. -/
def noFail : FName → Bool := fun _ => false

/-- The merge-and-cleanup phase of `Tiler.generate_tiles`
(`__init__.py` lines 117–124): scan for `r*.tiff`, merge the four
channels of every found coordinate, delete the channel files; any
exception from the `try` block is re-raised as a single `RuntimeError`. -/
def generate_tiles_merge_phase (fs : FS) : Except TilerError FS :=
  match get_img_filelist fs matchRStar with
  | none => .ok fs
  | some imgFiles =>
    match channels_to_RGBA imgFiles fs with
    | .error e => .error (.runtimeError e)
    | .ok fs' => .ok (delete_channel_files noFail imgFiles fs')

/-- The whole file-level pipeline of `Tiler.generate_tiles(d)`
(`__init__.py` lines 99–125) on a raster with channels
`rA gA bA aA` of shape `h × w`, starting from an empty output folder:
tile `r`, `g`, `b`, scan for `r*.tiff` files, tile `a` against that
coordinate list, scan again, merge into `rgba` tiles, delete the channel
files.  `none` models an exception escaping the run. -/
def generateTilesFS (rA gA bA aA : Nat → Nat → Nat) (h w d : Nat) : Option FS :=
  let fs1 := tile_rgb rA h w d ['r'] []
  let fs2 := tile_rgb gA h w d ['g'] fs1
  let fs3 := tile_rgb bA h w d ['b'] fs2
  match get_img_filelist fs3 matchRStar with
  | none => none
  | some imgFiles =>
    let fs4 := tile_alpha imgFiles aA h w d ['a'] fs3
    match get_img_filelist fs4 matchRStar with
    | none => none
    | some imgFiles2 =>
      match channels_to_RGBA imgFiles2 fs4 with
      | .error _ => none
      | .ok fs5 => some (delete_channel_files noFail imgFiles2 fs5)

/-! ### The Stitcher (`__init__.py` lines 151–257) -/

/-- A Python value at a parameter typed by `isinstance(x, int)` checks:
either an integer or something of another type. -/
inductive PyVal where
  | int (n : Int)
  | notInt
deriving DecidableEq

/-- How `Stitcher.__init__` can fail: a failed `assert` (precondition
failure) or an exception raised by a library call (`int()` on a
malformed filename, `Image.new` on a negative size). -/
inductive InitError where
  | assertionError (msg : List Char)
  | valueError
deriving DecidableEq

/-- The state `Stitcher.__init__` leaves behind. -/
structure StitcherState where
  tilesCoor : List (Nat × Nat)
  tilesSize : Nat
  gridList : List (Nat × Nat)

/-- `Stitcher.__init__(tiles_folder_path, w, h, tiles_size)`
(`__init__.py` lines 154–209), in source order: assert the folder is a
directory with at least one entry; glob `rgba*.tiff` and decode every
matching name (a malformed name raises); sort the coordinates; assert
`isinstance(w, int)`; assert `isinstance(h, int)`; assert
`isinstance(tiles_size, int) and tiles_size > 5`; allocate the
`w × h` RGBA canvas (negative sizes raise `ValueError` inside PIL);
compute the grid. -/
def stitcherInit (folderIsDir : Bool) (fs : FS) (w h ts : PyVal) :
    Except InitError StitcherState :=
  if ¬(folderIsDir && !fs.isEmpty) then
    .error (.assertionError ['e', 'm', 'p', 't', 'y'])
  else
    match (((fs.map Prod.fst).filter matchRgbaStarTiff).mapM decodeName) with
    | none => .error .valueError
    | some coords =>
      let tilesCoor := sortPairs coords
      match w with
      | .notInt => .error (.assertionError ['w'])
      | .int wv =>
        match h with
        | .notInt => .error (.assertionError ['h'])
        | .int hv =>
          match ts with
          | .notInt => .error (.assertionError ['t', 's'])
          | .int tv =>
            if ¬(5 < tv) then .error (.assertionError ['t', 's'])
            else if wv < 0 ∨ hv < 0 then .error .valueError
            else
              .ok { tilesCoor := tilesCoor, tilesSize := tv.toNat,
                    gridList := grid hv.toNat wv.toNat tv.toNat }

/-- An RGBA canvas, pixel function of (x, y). -/
abbrev Canvas := Nat → Nat → Nat × Nat × Nat × Nat

/-- `Image.new("RGBA", (w, h))`: every pixel transparent black. -/
def emptyCanvas : Canvas := fun _ _ => (0, 0, 0, 0)

/-- `canvas.paste(tile, (j, i, j + d, i + d))`: pixels with
`j ≤ x < j + d` and `i ≤ y < i + d` take the tile's value. -/
def paste (c : Canvas) (t : Nat → Nat → Nat × Nat × Nat × Nat) (i j d : Nat) : Canvas :=
  fun x y =>
    if j ≤ x ∧ x < j + d ∧ i ≤ y ∧ y < i + d then t (y - i) (x - j) else c x y

/-- One `Stitcher.__stitch_tiles(tile_coordinate)` call (`__init__.py`
lines 211–220): if the grid coordinate is in the decoded tile index,
open `rgba_{i}_{j}.tiff` and paste it at box `(j, i, j+d, i+d)`;
opening a missing (or single-channel) file raises. -/
def stitch_tiles (index : List (Nat × Nat)) (d : Nat) (fs : FS)
    (c : Canvas) (p : Nat × Nat) : Except (List Char) Canvas :=
  if p ∈ index then
    match fsLookup fs (encodeName ['r', 'g', 'b', 'a'] p.1 p.2 tiffExt) with
    | some (.rgba t) => .ok (paste c t p.1 p.2 d)
    | _ => .error ['I', 'O']
  else .ok c

/-- The canvas produced by `Stitcher.stitch` before saving: fold
`__stitch_tiles` over the whole grid starting from the blank canvas. -/
def stitchCanvas (fs : FS) (w h d : Nat) (index : List (Nat × Nat)) :
    Except (List Char) Canvas :=
  (grid h w d).foldlM (stitch_tiles index d fs) emptyCanvas

/-- Stitching a tiles folder with original channel width `w`, height `h`
and tile size `d`: `Stitcher.__init__` first asserts the tiles folder is
a non-empty directory (`__init__.py` lines 168–170; the raised
`AssertionError` on an empty folder is modelled as `none`), then indexes
the folder, and `stitch` runs the grid loop. -/
def stitchPipeline (fs : FS) (w h d : Nat) : Option Canvas :=
  if fs.isEmpty then none
  else
    match get_img_filelist fs matchRgbaStarTiff with
    | none => none
    | some index =>
      match stitchCanvas fs w h d index with
      | .error _ => none
      | .ok c => some c

/-- `str(n).zfill(k)`: the decimal representation left-padded with
zeros to width `k` (how `strftime` pads its numeric fields). -/
def zfill (k n : Nat) : List Char :=
  List.replicate (k - (natRepr n).length) '0' ++ natRepr n

/-- `datetime.now().strftime("%Y_%m_%d-%I_%M_%S_%p")`
(`__init__.py` line 241). -/
def timeStr (Y Mo D I Mi S : Nat) (pm : Bool) : FName :=
  zfill 4 Y ++ '_' :: zfill 2 Mo ++ '_' :: zfill 2 D ++ '-' :: zfill 2 I ++
    '_' :: zfill 2 Mi ++ '_' :: zfill 2 S ++ '_' ::
    (if pm then ['P', 'M'] else ['A', 'M'])

/-- The composite filename `f"{time_str}_rgba{extension}"`
(`__init__.py` line 243). -/
def compositeName (ts ext : FName) : FName :=
  ts ++ '_' :: ['r', 'g', 'b', 'a'] ++ ext

/-- The folder effect of `Stitcher.stitch(extension, cleanup_tiles=True)`
after the grid loop (`__init__.py` lines 240–254): save the composite
under the timestamped name, re-scan the folder for `rgba_*`, and delete
`rgba_{i}_{j}.tiff` for every decoded coordinate (best-effort, under the
failure oracle `fails`).  `none` models the exception `int()` raises
during the re-scan on a malformed `rgba_*` name. -/
def stitchCleanupFS (fails : FName → Bool) (fs : FS) (ts ext : FName)
    (canvas : Canvas) : Option FS :=
  let fs1 : FS := (compositeName ts ext, .rgba canvas) :: fs
  match get_img_filelist fs1 matchRgbaUnderscore with
  | none => none
  | some coords => some (delete_tiles fails coords fs1)

/-! ### The Tiler's construction state (`__init__.py` lines 54–148) -/

/-- The fields `Tiler.__init__` initialises that `get_metadata` reads
(`__init__.py` lines 77–79): the output folder, and `channel_shape` /
`tiles_size`, both still `None` before any channel has been processed. -/
structure TilerState where
  out : FName
  channel_shape : Option (Nat × Nat)
  tiles_size : Option Nat

/-- `Tiler.__init__(orthomosaic_image_path, output_folderpath)` after a
successful open: `self.channel_shape = None`, `self.tiles_size = None`. -/
def tilerInit (out : FName) : TilerState :=
  { out := out, channel_shape := none, tiles_size := none }

/-- The dictionary `Tiler.get_metadata` returns. -/
structure Metadata where
  tiles_folder_path : FName
  orthomosaic_channel_width : Nat
  orthomosaic_channel_height : Nat
  tiles_size : Option Nat

/-- `Tiler.get_metadata` (`__init__.py` lines 136–148): subscripts
`self.channel_shape[1]` / `[0]`, which raises a `TypeError` while
`channel_shape` is still `None`. -/
def get_metadata (st : TilerState) : Except (List Char) Metadata :=
  match st.channel_shape with
  | none => .error ['T', 'y', 'p', 'e', 'E', 'r', 'r', 'o', 'r']
  | some shape =>
    .ok { tiles_folder_path := st.out,
          orthomosaic_channel_width := shape.2,
          orthomosaic_channel_height := shape.1,
          tiles_size := st.tiles_size }

/-! ### Decimal printing and parsing -/

theorem digitCh_toNat {n : Nat} (h : n < 10) : (digitCh n).toNat = 48 + n := by
  interval_cases n <;> rfl

theorem isDigitCh_digitCh {n : Nat} (h : n < 10) : isDigitCh (digitCh n) = true := by
  interval_cases n <;> rfl

theorem mem_natReprCore {fuel n : Nat} {c : Char} (h : c ∈ natReprCore fuel n) :
    ∃ k, k < 10 ∧ c = digitCh k := by
  induction fuel generalizing n with
  | zero =>
    simp only [natReprCore, List.mem_singleton] at h
    exact ⟨n % 10, Nat.mod_lt _ (by omega), h⟩
  | succ fuel ih =>
    simp only [natReprCore] at h
    split at h
    · exact ⟨n, by omega, List.mem_singleton.mp h⟩
    · rcases List.mem_append.mp h with h' | h'
      · exact ih h'
      · exact ⟨n % 10, Nat.mod_lt _ (by omega), List.mem_singleton.mp h'⟩

theorem mem_natRepr_isDigit {n : Nat} {c : Char} (h : c ∈ natRepr n) :
    isDigitCh c = true := by
  obtain ⟨k, hk, rfl⟩ := mem_natReprCore h
  exact isDigitCh_digitCh hk

theorem natRepr_ne_nil (n : Nat) : natRepr n ≠ [] := by
  unfold natRepr
  cases n with
  | zero => simp [natReprCore]
  | succ m =>
    simp only [natReprCore]
    split
    · simp
    · intro h
      exact absurd (List.append_eq_nil.mp h).2 (by simp)

theorem underscore_not_mem_natRepr (n : Nat) : '_' ∉ natRepr n := by
  intro h
  have := mem_natRepr_isDigit h
  simp [isDigitCh] at this

theorem dot_not_mem_natRepr (n : Nat) : '.' ∉ natRepr n := by
  intro h
  have := mem_natRepr_isDigit h
  simp [isDigitCh] at this

theorem parseNat_append_digit (xs : List Char) (c : Char) :
    parseNat (xs ++ [c]) = 10 * parseNat xs + (c.toNat - 48) := by
  simp [parseNat, List.foldl_append]

theorem parseNat_natReprCore {fuel n : Nat} (h : n ≤ fuel) :
    parseNat (natReprCore fuel n) = n := by
  induction fuel generalizing n with
  | zero =>
    have : n = 0 := by omega
    subst this; rfl
  | succ fuel ih =>
    simp only [natReprCore]
    split
    next hn =>
      show 10 * 0 + ((digitCh n).toNat - 48) = n
      rw [digitCh_toNat hn]; omega
    next hn =>
      rw [parseNat_append_digit, ih (by omega : n / 10 ≤ fuel),
        digitCh_toNat (Nat.mod_lt _ (by omega))]
      omega

theorem parseNat_natRepr (n : Nat) : parseNat (natRepr n) = n :=
  parseNat_natReprCore le_rfl

theorem parseNatQ_natRepr (n : Nat) : parseNatQ (natRepr n) = some n := by
  unfold parseNatQ
  rw [if_pos ⟨natRepr_ne_nil n, List.all_eq_true.mpr fun c hc => mem_natRepr_isDigit hc⟩,
    parseNat_natRepr]

/-! ### Splitting filenames -/

/-- Unfolding equation of `splitChar` at a cons cell. -/
theorem splitChar_cons (sep c : Char) (cs : List Char) :
    splitChar sep (c :: cs) =
      match splitChar sep cs with
      | [] => [[]]
      | t :: ts => if c = sep then [] :: t :: ts else (c :: t) :: ts := rfl

theorem splitChar_ne_nil (sep : Char) (s : List Char) : splitChar sep s ≠ [] := by
  cases s with
  | nil => simp [splitChar]
  | cons c cs =>
    rw [splitChar_cons]
    cases h : splitChar sep cs with
    | nil => simp
    | cons t ts => by_cases hc : c = sep <;> simp [hc]

theorem splitChar_of_not_mem {sep : Char} {xs : List Char} (h : sep ∉ xs) :
    splitChar sep xs = [xs] := by
  induction xs with
  | nil => rfl
  | cons c cs ih =>
    have hc : c ≠ sep := fun hcs => h (hcs ▸ List.mem_cons_self c cs)
    have hcs : sep ∉ cs := fun hm => h (List.mem_cons_of_mem c hm)
    rw [splitChar_cons, ih hcs]
    simp [hc]

theorem splitChar_append {sep : Char} {xs : List Char} (ys : List Char) (h : sep ∉ xs) :
    splitChar sep (xs ++ sep :: ys) = xs :: splitChar sep ys := by
  induction xs with
  | nil =>
    rw [List.nil_append, splitChar_cons]
    cases hys : splitChar sep ys with
    | nil => exact absurd hys (splitChar_ne_nil sep ys)
    | cons t ts => simp
  | cons c cs ih =>
    have hc : c ≠ sep := fun hcs => h (hcs ▸ List.mem_cons_self c cs)
    have hcs : sep ∉ cs := fun hm => h (List.mem_cons_of_mem c hm)
    rw [List.cons_append, splitChar_cons, ih hcs]
    simp [hc]

/-! ### The naming codec -/

theorem splitChar_encodeName {pref : FName} (hp : '_' ∉ pref) (i j : Nat) :
    splitChar '_' (encodeName pref i j tiffExt) =
      [pref, natRepr i, natRepr j ++ tiffExt] := by
  have he : encodeName pref i j tiffExt =
      pref ++ '_' :: (natRepr i ++ '_' :: (natRepr j ++ tiffExt)) := by
    simp [encodeName]
  rw [he, splitChar_append _ hp, splitChar_append _ (underscore_not_mem_natRepr i),
    splitChar_of_not_mem]
  intro hm
  rcases List.mem_append.mp hm with h' | h'
  · exact underscore_not_mem_natRepr j h'
  · simp [tiffExt] at h'

theorem decodeName_encodeName {pref : FName} (hp : '_' ∉ pref) (i j : Nat) :
    decodeName (encodeName pref i j tiffExt) = some (i, j) := by
  unfold decodeName
  rw [splitChar_encodeName hp i j]
  have hdot : splitChar '.' (natRepr j ++ tiffExt) = natRepr j :: splitChar '.' ['t', 'i', 'f', 'f'] :=
    splitChar_append _ (dot_not_mem_natRepr j)
  simp only [List.get?, hdot, List.headI, parseNatQ_natRepr]

theorem encodeName_prefix {pref : FName} (hp : '_' ∉ pref) (i j : Nat) :
    (splitChar '_' (encodeName pref i j tiffExt)).headI = pref := by
  rw [splitChar_encodeName hp i j]; rfl

/-- Two encoded tile names agree only if prefix and both coordinates agree
(for underscore-free prefixes). -/
theorem encodeName_inj {pref pref' : FName} (hp : '_' ∉ pref) (hp' : '_' ∉ pref')
    {i j i' j' : Nat} (h : encodeName pref i j tiffExt = encodeName pref' i' j' tiffExt) :
    pref = pref' ∧ i = i' ∧ j = j' := by
  have h0 : pref = pref' := by
    have := encodeName_prefix hp i j
    rw [h, encodeName_prefix hp' i' j'] at this
    exact this.symm
  have h1 : decodeName (encodeName pref i j tiffExt) = some (i, j) := decodeName_encodeName hp i j
  rw [h, decodeName_encodeName hp' i' j'] at h1
  simp only [Option.some.injEq, Prod.mk.injEq] at h1
  exact ⟨h0, h1.1.symm, h1.2.symm⟩

/-! ### The grid -/

theorem pyRange_partition {d : Nat} (hd : 0 < d) (n : Nat) :
    pyRange (n - n % d) d = (List.range (n / d)).map (· * d) := by
  unfold pyRange
  congr 1
  have h1 : n - n % d = d * (n / d) := by
    have := Nat.div_add_mod n d
    omega
  have h2 : d * (n / d) + d - 1 = d - 1 + (n / d) * d := by
    have : d * (n / d) = (n / d) * d := Nat.mul_comm _ _
    omega
  rw [h1, h2, Nat.add_mul_div_right _ _ hd, Nat.div_eq_of_lt (by omega), Nat.zero_add]

theorem grid_eq {d : Nat} (hd : 0 < d) (h w : Nat) :
    grid h w d =
      (List.range (h / d)).flatMap fun a =>
        (List.range (w / d)).map fun b => (a * d, b * d) := by
  unfold grid
  rw [pyRange_partition hd h, pyRange_partition hd w, List.flatMap_map]
  congr 1
  funext a
  rw [List.map_map]
  rfl

theorem mem_grid {d : Nat} (hd : 0 < d) {h w i j : Nat} :
    (i, j) ∈ grid h w d ↔ d ∣ i ∧ i < h - h % d ∧ d ∣ j ∧ j < w - w % d := by
  have hh : h - h % d = d * (h / d) := by have := Nat.div_add_mod h d; omega
  have hw : w - w % d = d * (w / d) := by have := Nat.div_add_mod w d; omega
  rw [grid_eq hd, List.mem_flatMap]
  constructor
  · rintro ⟨a, ha, hm⟩
    rw [List.mem_map] at hm
    obtain ⟨b, hb, hab⟩ := hm
    rw [List.mem_range] at ha hb
    have h1 : a * d = i := congrArg Prod.fst hab
    have h2 : b * d = j := congrArg Prod.snd hab
    subst h1; subst h2
    refine ⟨dvd_mul_left d a, ?_, dvd_mul_left d b, ?_⟩
    · rw [hh, Nat.mul_comm d (h / d)]
      exact (Nat.mul_lt_mul_right hd).mpr ha
    · rw [hw, Nat.mul_comm d (w / d)]
      exact (Nat.mul_lt_mul_right hd).mpr hb
  · rintro ⟨⟨a, rfl⟩, hi, ⟨b, rfl⟩, hj⟩
    rw [hh] at hi; rw [hw] at hj
    refine ⟨a, List.mem_range.mpr ?_, List.mem_map.mpr ⟨b, List.mem_range.mpr ?_, ?_⟩⟩
    · exact Nat.lt_of_mul_lt_mul_left hi
    · exact Nat.lt_of_mul_lt_mul_left hj
    · rw [Nat.mul_comm a d, Nat.mul_comm b d]

theorem length_flatMap_const {α β : Type} (l : List α) (g : α → List β) (k : Nat)
    (hg : ∀ a ∈ l, (g a).length = k) : (l.flatMap g).length = l.length * k := by
  induction l with
  | nil => simp
  | cons x xs ih =>
    rw [List.flatMap_cons, List.length_append, hg x (List.mem_cons_self x xs),
      ih fun a ha => hg a (List.mem_cons_of_mem x ha), List.length_cons, Nat.succ_mul]
    omega

theorem grid_length {d : Nat} (hd : 0 < d) (h w : Nat) :
    (grid h w d).length = (h / d) * (w / d) := by
  rw [grid_eq hd, length_flatMap_const _ _ (w / d) fun a _ => by simp, List.length_range]

theorem grid_empty {h w d : Nat} (hd : 0 < d) (hlt : h < d ∨ w < d) :
    grid h w d = [] := by
  rw [grid_eq hd]
  rcases hlt with hlt | hlt
  · rw [Nat.div_eq_of_lt hlt, List.range_zero]
    rfl
  · rw [Nat.div_eq_of_lt hlt, List.range_zero]
    apply List.flatMap_eq_nil_iff.mpr
    intro x _
    rfl

/-- Two consecutive grid entries: either same row and the column advances
by exactly `d`, or the row advances by exactly `d` and the column
restarts at 0. -/
def gridStep (d : Nat) (p q : Nat × Nat) : Prop :=
  (q.1 = p.1 ∧ q.2 = p.2 + d) ∨ (q.1 = p.1 + d ∧ q.2 = 0)

theorem chain'_map_range {α : Type} (R : α → α → Prop) (f : Nat → α) (n : Nat)
    (hf : ∀ m, m + 1 < n → R (f m) (f (m + 1))) :
    List.Chain' R ((List.range n).map f) := by
  rw [List.chain'_map]
  cases n with
  | zero => simp
  | succ k =>
    rw [List.chain'_range_succ]
    intro m hm
    exact hf m (by omega)

theorem chain'_row {d wq : Nat} (a : Nat) :
    List.Chain' (gridStep d) ((List.range wq).map fun b => (a * d, b * d)) := by
  apply chain'_map_range
  intro m _
  exact Or.inl ⟨rfl, by rw [Nat.add_mul, Nat.one_mul]⟩

theorem row_head? {d wq : Nat} (hwq : 0 < wq) (a : Nat) :
    ((List.range wq).map fun b => (a * d, b * d)).head? = some (a * d, 0) := by
  cases wq with
  | zero => omega
  | succ k =>
    rw [List.range_succ_eq_map]
    simp

theorem row_getLast? {d wq : Nat} (hwq : 0 < wq) (a : Nat) :
    ((List.range wq).map fun b => (a * d, b * d)).getLast? = some (a * d, (wq - 1) * d) := by
  cases wq with
  | zero => omega
  | succ k =>
    rw [List.range_succ, List.map_append]
    simp

theorem grid_chain_aux {d wq : Nat} (hwq : 0 < wq) :
    ∀ len s, List.Chain' (gridStep d)
      ((List.range' s len).flatMap fun a => (List.range wq).map fun b => (a * d, b * d)) := by
  intro len
  induction len with
  | zero => intro s; simp
  | succ k ih =>
    intro s
    rw [List.range'_succ, List.flatMap_cons]
    rw [List.chain'_append]
    refine ⟨chain'_row s, ih (s + 1), ?_⟩
    intro x hx y hy
    cases k with
    | zero => simp at hy
    | succ k' =>
      rw [row_getLast? hwq s] at hx
      rw [List.range'_succ, List.flatMap_cons, List.head?_append, row_head? hwq (s + 1),
        Option.or_some] at hy
      simp only [Option.mem_def, Option.some.injEq] at hx hy
      subst hx; subst hy
      exact Or.inr ⟨by rw [Nat.add_mul, Nat.one_mul], rfl⟩

theorem grid_chain {d : Nat} (hd : 0 < d) (h w : Nat) :
    List.Chain' (gridStep d) (grid h w d) := by
  rw [grid_eq hd]
  by_cases hw : w / d = 0
  · rw [hw, List.range_zero]
    have hnil : ((List.range (h / d)).flatMap fun a =>
        ([] : List Nat).map fun b => (a * d, b * d)) = [] := by
      apply List.flatMap_eq_nil_iff.mpr
      intro x _
      rfl
    rw [hnil]
    exact List.chain'_nil
  · rw [List.range_eq_range']
    exact grid_chain_aux (Nat.pos_of_ne_zero hw) (h / d) 0

/-! ### Claim C2: the grid -/

/-- C2: for positive `h`, `w` and tile dimension `d > 5`, the grid over
`(h, w, d)` is the row-major sequence of pairs `(i, j)` with `i` a
multiple of `d` below `h - h % d` and `j` a multiple of `d` below
`w - w % d`; it has exactly `(h / d) * (w / d)` entries, all inside
`[0, h) × [0, w)`, consecutive entries step by exactly `d`, and it is
empty when `h < d` or `w < d`. -/
theorem grid_partitioner_spec (h w d : Nat) (hh : 0 < h) (hw : 0 < w) (hd : 5 < d) :
    grid h w d =
      ((List.range (h / d)).flatMap fun a =>
        (List.range (w / d)).map fun b => (a * d, b * d))
    ∧ (grid h w d).length = (h / d) * (w / d)
    ∧ (∀ p ∈ grid h w d, p.1 < h ∧ p.2 < w)
    ∧ (∀ i j, (i, j) ∈ grid h w d ↔ d ∣ i ∧ i < h - h % d ∧ d ∣ j ∧ j < w - w % d)
    ∧ List.Chain' (gridStep d) (grid h w d)
    ∧ ((h < d ∨ w < d) → grid h w d = []) := by
  have hd0 : 0 < d := by omega
  refine ⟨grid_eq hd0 h w, grid_length hd0 h w, ?_, fun i j => mem_grid hd0,
    grid_chain hd0 h w, grid_empty hd0⟩
  intro p hp
  have hp' : (p.1, p.2) ∈ grid h w d := by rwa [Prod.mk.eta]
  have := (mem_grid hd0).mp hp'
  omega

/-- Witness for C2 at `h = 13`, `w = 7`, `d = 6`. -/
theorem grid_partitioner_spec_witness :
    grid 13 7 6 =
      ((List.range (13 / 6)).flatMap fun a =>
        (List.range (7 / 6)).map fun b => (a * 6, b * 6))
    ∧ (grid 13 7 6).length = (13 / 6) * (7 / 6)
    ∧ (∀ p ∈ grid 13 7 6, p.1 < 13 ∧ p.2 < 7)
    ∧ (∀ i j, (i, j) ∈ grid 13 7 6 ↔ 6 ∣ i ∧ i < 13 - 13 % 6 ∧ 6 ∣ j ∧ j < 7 - 7 % 6)
    ∧ List.Chain' (gridStep 6) (grid 13 7 6)
    ∧ ((13 < 6 ∨ 7 < 6) → grid 13 7 6 = []) :=
  grid_partitioner_spec 13 7 6 (by decide) (by decide) (by decide)

/-! ### Claim C4: the naming codec -/

/-- C4: for every channel in `{r, g, b, a, rgba}` and all row/col values,
decoding the encoded filename `f"{channel}_{row}_{col}.tiff"` the way
`get_img_filelist` and `Stitcher.__init__` do yields `(row, col)` back. -/
theorem naming_codec_round_trip (ch : FName)
    (hch : ch ∈ [['r'], ['g'], ['b'], ['a'], ['r', 'g', 'b', 'a']]) (row col : Nat) :
    decodeName (encodeName ch row col tiffExt) = some (row, col) := by
  fin_cases hch <;> exact decodeName_encodeName (by decide) row col

/-- Witness for C4 at channel `rgba`, row 12, col 345. -/
theorem naming_codec_round_trip_witness :
    decodeName (encodeName ['r', 'g', 'b', 'a'] 12 345 tiffExt) = some (12, 345) :=
  naming_codec_round_trip ['r', 'g', 'b', 'a'] (by decide) 12 345

/-! ### What the channel tilers write -/

theorem tile_rgb_foldl (arr : Nat → Nat → Nat) (d : Nat) (pref : FName) :
    ∀ (l : List (Nat × Nat)) (fs : FS),
      (l.foldl
        (fun fs p =>
          let t := crop arr p.1 p.2
          if saveCond t d then (encodeName pref p.1 p.2 tiffExt, Img.gray t) :: fs else fs)
        fs) =
      ((l.filter fun p => saveCond (crop arr p.1 p.2) d).map
        fun p => (encodeName pref p.1 p.2 tiffExt, Img.gray (crop arr p.1 p.2))).reverse ++ fs := by
  intro l
  induction l with
  | nil => intro fs; rfl
  | cons p l ih =>
    intro fs
    rw [List.foldl_cons, List.filter_cons]
    by_cases hc : saveCond (crop arr p.1 p.2) d
    · rw [if_pos hc, if_pos hc, ih, List.map_cons, List.reverse_cons, List.append_assoc]
      rfl
    · rw [if_neg hc, if_neg (by simpa using hc), ih]

theorem tile_rgb_eq (arr : Nat → Nat → Nat) (h w d : Nat) (pref : FName) (fs : FS) :
    tile_rgb arr h w d pref fs =
      (((grid h w d).filter fun p => saveCond (crop arr p.1 p.2) d).map
        fun p => (encodeName pref p.1 p.2 tiffExt, Img.gray (crop arr p.1 p.2))).reverse ++ fs :=
  tile_rgb_foldl arr d pref (grid h w d) fs

theorem tile_alpha_foldl (imgFiles : List (Nat × Nat)) (arr : Nat → Nat → Nat)
    (pref : FName) :
    ∀ (l : List (Nat × Nat)) (fs : FS),
      (l.foldl
        (fun fs p =>
          if p ∈ imgFiles then
            (encodeName pref p.1 p.2 tiffExt, Img.gray (crop arr p.1 p.2)) :: fs
          else fs)
        fs) =
      ((l.filter fun p => decide (p ∈ imgFiles)).map
        fun p => (encodeName pref p.1 p.2 tiffExt, Img.gray (crop arr p.1 p.2))).reverse ++ fs := by
  intro l
  induction l with
  | nil => intro fs; rfl
  | cons p l ih =>
    intro fs
    rw [List.foldl_cons, List.filter_cons]
    by_cases hc : p ∈ imgFiles
    · rw [if_pos hc, if_pos (by simpa using hc), ih, List.map_cons, List.reverse_cons,
        List.append_assoc]
      rfl
    · rw [if_neg hc, if_neg (by simpa using hc), ih]

theorem tile_alpha_eq (imgFiles : List (Nat × Nat)) (arr : Nat → Nat → Nat)
    (h w d : Nat) (pref : FName) (fs : FS) :
    tile_alpha imgFiles arr h w d pref fs =
      (((grid h w d).filter fun p => decide (p ∈ imgFiles)).map
        fun p => (encodeName pref p.1 p.2 tiffExt, Img.gray (crop arr p.1 p.2))).reverse ++ fs :=
  tile_alpha_foldl imgFiles arr pref (grid h w d) fs

theorem saveCond_iff {t : Nat → Nat → Nat} {d : Nat} :
    saveCond t d = true ↔ ∃ y < d, ∃ x < d, 255 - t y x ≠ 0 := by
  simp [saveCond, List.any_eq_true, List.mem_range]

/-- The filenames `tile_rgb` leaves in a fresh directory. -/
theorem mem_names_tile_rgb {arr : Nat → Nat → Nat} {h w d : Nat} {pref : FName}
    {n : FName} :
    n ∈ (tile_rgb arr h w d pref []).map Prod.fst ↔
      ∃ p ∈ grid h w d, saveCond (crop arr p.1 p.2) d = true ∧
        n = encodeName pref p.1 p.2 tiffExt := by
  rw [tile_rgb_eq, List.append_nil, List.map_reverse, List.mem_reverse]
  simp only [List.mem_map, List.mem_filter]
  constructor
  · rintro ⟨e, ⟨p, ⟨hp, hc⟩, rfl⟩, rfl⟩
    exact ⟨p, hp, hc, rfl⟩
  · rintro ⟨p, hp, hc, rfl⟩
    exact ⟨(encodeName pref p.1 p.2 tiffExt, Img.gray (crop arr p.1 p.2)),
      ⟨p, ⟨hp, hc⟩, rfl⟩, rfl⟩

/-- The filenames `tile_alpha` leaves in a fresh directory. -/
theorem mem_names_tile_alpha {imgFiles : List (Nat × Nat)} {arr : Nat → Nat → Nat}
    {h w d : Nat} {pref : FName} {n : FName} :
    n ∈ (tile_alpha imgFiles arr h w d pref []).map Prod.fst ↔
      ∃ p ∈ grid h w d, p ∈ imgFiles ∧ n = encodeName pref p.1 p.2 tiffExt := by
  rw [tile_alpha_eq, List.append_nil, List.map_reverse, List.mem_reverse]
  simp only [List.mem_map, List.mem_filter, decide_eq_true_eq]
  constructor
  · rintro ⟨e, ⟨p, ⟨hp, hc⟩, rfl⟩, rfl⟩
    exact ⟨p, hp, hc, rfl⟩
  · rintro ⟨p, hp, hc, rfl⟩
    exact ⟨(encodeName pref p.1 p.2 tiffExt, Img.gray (crop arr p.1 p.2)),
      ⟨p, ⟨hp, hc⟩, rfl⟩, rfl⟩

/-! ### Claim C1: the blank-skip rule of `tile_rgb` -/

/-- C1 (amended): a color-channel tile at a grid cell `(i, j)` is
persisted by `tile_rgb` iff its `d × d` crop is **not uniformly 255**
(white) — `ImageChops.invert` maps pixel `p` to `255 - p`, so `getbbox()`
is non-`None` exactly when some pixel differs from 255.  In particular a
uniformly zero (black) tile **is** persisted. -/
theorem tile_rgb_blank_skip_characterization (arr : Nat → Nat → Nat) (h w d : Nat)
    (pref : FName) (hp : '_' ∉ pref) (i j : Nat) (hij : (i, j) ∈ grid h w d)
    (hb : ∀ y < d, ∀ x < d, arr (i + y) (j + x) ≤ 255) :
    encodeName pref i j tiffExt ∈ (tile_rgb arr h w d pref []).map Prod.fst ↔
      ∃ y < d, ∃ x < d, arr (i + y) (j + x) ≠ 255 := by
  rw [mem_names_tile_rgb]
  constructor
  · rintro ⟨p, hpg, hc, hn⟩
    obtain ⟨-, hi, hj⟩ := encodeName_inj hp hp hn.symm
    have hpq : p = (i, j) := by
      cases p
      simp only at hi hj
      rw [hi, hj]
    subst hpq
    obtain ⟨y, hy, x, hx, hv⟩ := saveCond_iff.mp hc
    refine ⟨y, hy, x, hx, ?_⟩
    have := hb y hy x hx
    simp only [crop] at hv
    omega
  · rintro ⟨y, hy, x, hx, hv⟩
    refine ⟨(i, j), hij, ?_, rfl⟩
    apply saveCond_iff.mpr
    refine ⟨y, hy, x, hx, ?_⟩
    have := hb y hy x hx
    simp only [crop]
    omega

/-- Counterexample to C1 as stated: at a 6×6 uniformly **zero** channel
array with `d = 6`, the crop at grid cell (0,0) is uniformly zero/black,
yet `tile_rgb` persists `r_0_0.tiff`. -/
theorem tile_rgb_persists_uniform_zero_tile :
    (∀ y < 6, ∀ x < 6, (fun (_ _ : Nat) => 0) (0 + y) (0 + x) = 0)
    ∧ encodeName ['r'] 0 0 tiffExt ∈
        (tile_rgb (fun _ _ => 0) 6 6 6 ['r'] []).map Prod.fst := by
  constructor
  · intro y _ x _
    rfl
  · decide

/-- Witness for C1 at a 6×6 array `arr y x = y + x` (not uniformly 255),
grid cell (0,0), `d = 6`, prefix `r`. -/
theorem tile_rgb_blank_skip_characterization_witness :
    (encodeName ['r'] 0 0 tiffExt ∈
        (tile_rgb (fun y x => y + x) 6 6 6 ['r'] []).map Prod.fst ↔
      ∃ y < 6, ∃ x < 6, (fun (y x : Nat) => y + x) (0 + y) (0 + x) ≠ 255) :=
  tile_rgb_blank_skip_characterization (fun y x => y + x) 6 6 6 ['r'] (by decide) 0 0
    (by decide) (by decide)

/-! ### Claim C5: the alpha tiler -/

/-- C5 (amended): `tile_alpha` persists a tile exactly at the supplied
coordinates **that lie on the grid** of the alpha array's shape, and the
set of persisted filenames is independent of the alpha pixel content.
A supplied coordinate off the grid is silently not persisted. -/
theorem tile_alpha_persists_supplied_grid_coords (imgFiles : List (Nat × Nat))
    (arr : Nat → Nat → Nat) (h w d : Nat) (pref : FName) (hp : '_' ∉ pref)
    (hd : 5 < d) (i j : Nat) :
    (encodeName pref i j tiffExt ∈ (tile_alpha imgFiles arr h w d pref []).map Prod.fst ↔
      (i, j) ∈ imgFiles ∧ (i, j) ∈ grid h w d)
    ∧ ∀ arr' : Nat → Nat → Nat,
        (tile_alpha imgFiles arr' h w d pref []).map Prod.fst =
          (tile_alpha imgFiles arr h w d pref []).map Prod.fst := by
  constructor
  · rw [mem_names_tile_alpha]
    constructor
    · rintro ⟨p, hpg, hc, hn⟩
      obtain ⟨-, hi, hj⟩ := encodeName_inj hp hp hn.symm
      have hpq : p = (i, j) := by
        cases p
        simp only at hi hj
        rw [hi, hj]
      subst hpq
      exact ⟨hc, hpg⟩
    · rintro ⟨hm, hg⟩
      exact ⟨(i, j), hg, hm, rfl⟩
  · intro arr'
    rw [tile_alpha_eq, tile_alpha_eq, List.append_nil, List.append_nil,
      List.map_reverse, List.map_reverse, List.map_map, List.map_map]
    rfl

/-- Counterexample to C5 as stated: supplying the single coordinate
(1, 1) to `tile_alpha` over a 6×6 alpha array with `d = 6` persists
nothing at all — (1, 1) is in the supplied set but off the grid. -/
theorem tile_alpha_ignores_off_grid_coordinate :
    ((1, 1) ∈ [((1 : Nat), (1 : Nat))])
    ∧ (tile_alpha [(1, 1)] (fun _ _ => 0) 6 6 6 ['a'] []).map Prod.fst = [] := by
  constructor
  · decide
  · decide

/-- Witness for C5 with supplied set `[(0, 0), (1, 1)]` over a 6×6 alpha
array at `d = 6`. -/
theorem tile_alpha_persists_supplied_grid_coords_witness :
    ((encodeName ['a'] 0 0 tiffExt ∈
        (tile_alpha [(0, 0), (1, 1)] (fun _ _ => 7) 6 6 6 ['a'] []).map Prod.fst ↔
      (0, 0) ∈ [((0 : Nat), (0 : Nat)), (1, 1)] ∧ (0, 0) ∈ grid 6 6 6)
    ∧ ∀ arr' : Nat → Nat → Nat,
        (tile_alpha [(0, 0), (1, 1)] arr' 6 6 6 ['a'] []).map Prod.fst =
          (tile_alpha [(0, 0), (1, 1)] (fun _ _ => 7) 6 6 6 ['a'] []).map Prod.fst) :=
  tile_alpha_persists_supplied_grid_coords [(0, 0), (1, 1)] (fun _ _ => 7) 6 6 6 ['a']
    (by decide) (by decide) 0 0

/-! ### Claim C9: best-effort deletion -/

theorem mem_delete_file_safe {fails : FName → Bool} {fs : FS} {n : FName}
    {e : FName × Img} :
    e ∈ delete_file_safe fails fs n ↔ e ∈ fs ∧ (e.1 = n → fails n = true) := by
  unfold delete_file_safe
  by_cases hf : fails n
  · rw [if_pos hf]
    exact ⟨fun h => ⟨h, fun _ => hf⟩, fun h => h.1⟩
  · rw [if_neg hf, List.mem_filter]
    constructor
    · rintro ⟨h1, h2⟩
      exact ⟨h1, fun he => absurd he (of_decide_eq_true h2)⟩
    · rintro ⟨h1, h2⟩
      refine ⟨h1, decide_eq_true ?_⟩
      intro he
      exact hf (h2 he)

theorem mem_delete_tiles {fails : FName → Bool} {files : List (Nat × Nat)}
    {fs : FS} {e : FName × Img} :
    e ∈ delete_tiles fails files fs ↔
      e ∈ fs ∧
        ((∃ p ∈ files, e.1 = encodeName ['r', 'g', 'b', 'a'] p.1 p.2 tiffExt) →
          fails e.1 = true) := by
  induction files generalizing fs with
  | nil =>
    simp only [delete_tiles, List.foldl_nil]
    exact ⟨fun h => ⟨h, by simp⟩, fun h => h.1⟩
  | cons p rest ih =>
    show e ∈ delete_tiles fails rest
        (delete_file_safe fails fs (encodeName ['r', 'g', 'b', 'a'] p.1 p.2 tiffExt)) ↔ _
    rw [ih, mem_delete_file_safe]
    constructor
    · rintro ⟨⟨h1, h2⟩, h3⟩
      refine ⟨h1, ?_⟩
      rintro ⟨q, hq, hn⟩
      rcases List.mem_cons.mp hq with rfl | hq'
      · exact hn ▸ h2 hn
      · exact h3 ⟨q, hq', hn⟩
    · rintro ⟨h1, h2⟩
      refine ⟨⟨h1, fun hn => hn ▸ h2 ⟨p, List.mem_cons_self p rest, hn⟩⟩, ?_⟩
      rintro ⟨q, hq, hn⟩
      exact h2 ⟨q, List.mem_cons_of_mem p hq, hn⟩

/-- C9: `delete_tiles` is best-effort per file: under any failure oracle,
an entry survives the cleanup pass iff it was present and either its name
is not a targeted `rgba_{i}_{j}.tiff` name or its own unlink call failed.
In particular one failed delete never stops the remaining deletes, and
`delete_file_safe` never propagates an exception (it is total by
construction). -/
theorem delete_tiles_best_effort (fails : FName → Bool) (files : List (Nat × Nat))
    (fs : FS) (e : FName × Img) :
    e ∈ delete_tiles fails files fs ↔
      e ∈ fs ∧
        ((∃ p ∈ files, e.1 = encodeName ['r', 'g', 'b', 'a'] p.1 p.2 tiffExt) →
          fails e.1 = true) :=
  mem_delete_tiles

/-! ### Claim C10: metadata before tiling -/

/-- C10: on a freshly constructed `Tiler`, before any channel has been
processed, `get_metadata` raises (`channel_shape` is still `None` and is
subscripted). -/
theorem get_metadata_before_tiling_raises (out : FName) :
    ∃ msg, get_metadata (tilerInit out) = .error msg :=
  ⟨['T', 'y', 'p', 'e', 'E', 'r', 'r', 'o', 'r'], rfl⟩

/-! ### Claim C6: a missing channel file aborts the merge -/

theorem fsLookup_cons_ne {m n : FName} {img : Img} {fs : FS} (h : m ≠ n) :
    fsLookup ((m, img) :: fs) n = fsLookup fs n := by
  show (if m = n then some img else fsLookup fs n) = fsLookup fs n
  rw [if_neg h]

theorem fsLookupGray_cons_ne {m n : FName} {img : Img} {fs : FS} (h : m ≠ n) :
    fsLookupGray ((m, img) :: fs) n = fsLookupGray fs n := by
  unfold fsLookupGray
  rw [fsLookup_cons_ne h]

theorem encodeName_ne_of_pref_ne {p q : FName} (hp : '_' ∉ p) (hq : '_' ∉ q)
    (hne : p ≠ q) (i j i' j' : Nat) :
    encodeName p i j tiffExt ≠ encodeName q i' j' tiffExt :=
  fun h => hne (encodeName_inj hp hq h).1

/-- Lookups of single-channel filenames are untouched by the `rgba` file
the merge loop writes. -/
theorem fsLookupGray_cons_rgba {ch : FName}
    (hch : ch ∈ [['r'], ['g'], ['b'], ['a']]) (i j i' j' : Nat) (img : Img) (fs : FS) :
    fsLookupGray ((encodeName ['r', 'g', 'b', 'a'] i j tiffExt, img) :: fs)
        (encodeName ch i' j' tiffExt) =
      fsLookupGray fs (encodeName ch i' j' tiffExt) := by
  apply fsLookupGray_cons_ne
  apply encodeName_ne_of_pref_ne (by decide) ?_ ?_
  · fin_cases hch <;> decide
  · fin_cases hch <;> decide

theorem channels_to_RGBA_error (files : List (Nat × Nat)) (fs : FS)
    (hmiss : ∃ p ∈ files, ∃ ch ∈ [['r'], ['g'], ['b'], ['a']],
      fsLookupGray fs (encodeName ch p.1 p.2 tiffExt) = none) :
    ∃ n, channels_to_RGBA files fs = .error (.missingFile n) := by
  induction files generalizing fs with
  | nil =>
    obtain ⟨p, hp, -⟩ := hmiss
    exact absurd hp (List.not_mem_nil p)
  | cons q rest ih =>
    obtain ⟨i, j⟩ := q
    show ∃ n, channels_to_RGBA ((i, j) :: rest) fs = .error (.missingFile n)
    unfold channels_to_RGBA
    cases hr : fsLookupGray fs (encodeName ['r'] i j tiffExt) with
    | none => exact ⟨_, rfl⟩
    | some r =>
      cases hg : fsLookupGray fs (encodeName ['g'] i j tiffExt) with
      | none => exact ⟨_, rfl⟩
      | some g =>
        cases hb : fsLookupGray fs (encodeName ['b'] i j tiffExt) with
        | none => exact ⟨_, rfl⟩
        | some b =>
          cases ha : fsLookupGray fs (encodeName ['a'] i j tiffExt) with
          | none => exact ⟨_, rfl⟩
          | some a =>
            apply ih
            obtain ⟨p, hp, ch, hch, hnone⟩ := hmiss
            rcases List.mem_cons.mp hp with rfl | hp'
            · exfalso
              fin_cases hch
              · exact absurd hnone (by rw [hr]; simp)
              · exact absurd hnone (by rw [hg]; simp)
              · exact absurd hnone (by rw [hb]; simp)
              · exact absurd hnone (by rw [ha]; simp)
            · refine ⟨p, hp', ch, hch, ?_⟩
              rw [fsLookupGray_cons_rgba hch]
              exact hnone

/-- C6: if any of the four channel files is missing for an enumerated
coordinate of the scanned list, the merge aborts with the raised error
(no coordinate is gracefully skipped) and `generate_tiles` surfaces it as
one wrapped `RuntimeError`. -/
theorem merge_missing_channel_fatal (files : List (Nat × Nat)) (fs : FS)
    (hscan : get_img_filelist fs matchRStar = some files)
    (hmiss : ∃ p ∈ files, ∃ ch ∈ [['r'], ['g'], ['b'], ['a']],
      fsLookupGray fs (encodeName ch p.1 p.2 tiffExt) = none) :
    ∃ n, channels_to_RGBA files fs = .error (.missingFile n)
      ∧ generate_tiles_merge_phase fs =
          .error (.runtimeError (.missingFile n)) := by
  obtain ⟨n, hn⟩ := channels_to_RGBA_error files fs hmiss
  refine ⟨n, hn, ?_⟩
  unfold generate_tiles_merge_phase
  rw [hscan]
  show (match channels_to_RGBA files fs with
    | Except.error e => Except.error (TilerError.runtimeError e)
    | Except.ok fs' => Except.ok (delete_channel_files noFail files fs')) =
    Except.error (TilerError.runtimeError (MergeError.missingFile n))
  rw [hn]

/-- Witness for C6: a folder holding only `r_0_0.tiff`; the scan
enumerates (0, 0) and the `g` file is missing. -/
theorem merge_missing_channel_fatal_witness :
    ∃ n, channels_to_RGBA [(0, 0)]
        [(encodeName ['r'] 0 0 tiffExt, Img.gray fun _ _ => 0)] =
          .error (.missingFile n)
      ∧ generate_tiles_merge_phase
          [(encodeName ['r'] 0 0 tiffExt, Img.gray fun _ _ => 0)] =
          .error (.runtimeError (.missingFile n)) :=
  merge_missing_channel_fatal [(0, 0)]
    [(encodeName ['r'] 0 0 tiffExt, Img.gray fun _ _ => 0)] rfl
    ⟨(0, 0), by decide, ['g'], by decide, rfl⟩

/-! ### Claim C7: Stitcher constructor validation -/

/-- C7 (amended): `Stitcher.__init__` accepts its inputs exactly when the
folder is a non-empty directory whose `rgba*.tiff` names all decode,
width and height are integers that are **merely non-negative** (there is
no positivity precondition: zero passes every check, and a negative value
only fails later inside the canvas allocation), and the tile size is an
integer greater than 5. -/
theorem stitcher_init_validation (folderIsDir : Bool) (fs : FS) (w h ts : PyVal) :
    (stitcherInit folderIsDir fs w h ts).isOk = true ↔
      folderIsDir = true ∧ fs ≠ []
        ∧ (((fs.map Prod.fst).filter matchRgbaStarTiff).mapM decodeName).isSome
        ∧ (∃ wv : Int, w = .int wv ∧ 0 ≤ wv)
        ∧ (∃ hv : Int, h = .int hv ∧ 0 ≤ hv)
        ∧ (∃ tv : Int, ts = .int tv ∧ 5 < tv) := by
  unfold stitcherInit
  by_cases h1 : folderIsDir && !fs.isEmpty
  · rw [if_neg (by simpa using h1)]
    obtain ⟨hdir, hne⟩ := Bool.and_eq_true_iff.mp h1
    have hfs : fs ≠ [] := by
      intro hnil
      rw [hnil] at hne
      simp at hne
    cases hm : ((fs.map Prod.fst).filter matchRgbaStarTiff).mapM decodeName with
    | none => simp [hdir, hfs, hm, Except.isOk, Except.toBool]
    | some coords =>
      cases w with
      | notInt => simp [hdir, hfs, hm, Except.isOk, Except.toBool]
      | int wv =>
        cases h with
        | notInt => simp [hdir, hfs, hm, Except.isOk, Except.toBool]
        | int hv =>
          cases ts with
          | notInt => simp [hdir, hfs, hm, Except.isOk, Except.toBool]
          | int tv =>
            dsimp only
            by_cases h5 : 5 < tv
            · rw [if_neg (by simpa using h5)]
              by_cases hneg : wv < 0 ∨ hv < 0
              · rw [if_pos hneg]
                simp only [Except.isOk, Except.toBool, hdir, hfs, hm, Option.isSome_some]
                constructor
                · intro hfalse
                  exact absurd hfalse (by simp)
                · rintro ⟨-, -, -, ⟨wv', hwv, hwpos⟩, ⟨hv', hhv, hhpos⟩, -⟩
                  injection hwv with hwv
                  injection hhv with hhv
                  subst hwv; subst hhv
                  omega
              · rw [if_neg hneg]
                simp only [Except.isOk, Except.toBool, Option.isSome_some]
                constructor
                · intro _
                  exact ⟨hdir, hfs, trivial, ⟨wv, rfl, by omega⟩, ⟨hv, rfl, by omega⟩,
                    ⟨tv, rfl, h5⟩⟩
                · intro _
                  trivial
            · rw [if_pos (by simpa using h5)]
              simp only [Except.isOk, Except.toBool]
              constructor
              · intro hfalse
                exact absurd hfalse (by simp)
              · rintro ⟨-, -, -, -, -, ⟨tv', htv, h5'⟩⟩
                injection htv with htv
                subst htv
                omega
  · rw [if_pos (by simpa using h1)]
    simp only [Except.isOk, Except.toBool]
    constructor
    · intro hfalse
      exact absurd hfalse (by simp)
    · rintro ⟨hdir, hfs, -⟩
      subst hdir
      exfalso
      apply h1
      cases fs with
      | nil => exact absurd rfl hfs
      | cons a l => rfl

/-- Counterexample to C7 as stated: a `Stitcher` constructed over a valid
non-empty folder with channel width **0** (a non-positive integer),
height 7 and tile size 6 is accepted — no precondition failure occurs. -/
theorem stitcher_init_accepts_zero_width :
    (stitcherInit true [(['x'], Img.gray fun _ _ => 0)]
      (.int 0) (.int 7) (.int 6)).isOk = true := rfl

/-! ### Claim C8: cleanup after stitching -/

theorem mem_insertSorted {x a : Nat × Nat} {l : List (Nat × Nat)} :
    a ∈ insertSorted x l ↔ a = x ∨ a ∈ l := by
  induction l with
  | nil => simp [insertSorted]
  | cons y ys ih =>
    unfold insertSorted
    by_cases hc : coordLE x y
    · rw [if_pos hc]
      simp [List.mem_cons]
    · rw [if_neg hc]
      rw [List.mem_cons, ih, List.mem_cons]
      tauto

theorem mem_sortPairs {a : Nat × Nat} {l : List (Nat × Nat)} :
    a ∈ sortPairs l ↔ a ∈ l := by
  induction l with
  | nil => simp [sortPairs]
  | cons x xs ih =>
    unfold sortPairs
    rw [mem_insertSorted, ih, List.mem_cons]

theorem mapM_isSome_of_forall {α β : Type} (f : α → Option β) :
    ∀ l : List α, (∀ a ∈ l, (f a).isSome) → ∃ r, l.mapM f = some r := by
  intro l
  induction l with
  | nil => exact fun _ => ⟨[], rfl⟩
  | cons a l ih =>
    intro hall
    obtain ⟨b, hb⟩ := Option.isSome_iff_exists.mp (hall a (List.mem_cons_self a l))
    obtain ⟨r, hr⟩ := ih fun x hx => hall x (List.mem_cons_of_mem a hx)
    refine ⟨b :: r, ?_⟩
    rw [List.mapM_cons, hb, hr]
    rfl

theorem mem_of_mapM_some {α β : Type} {f : α → Option β} :
    ∀ {l : List α} {r : List β}, l.mapM f = some r →
      ∀ a ∈ l, ∀ b, f a = some b → b ∈ r := by
  intro l
  induction l with
  | nil => intro r _ a ha; exact absurd ha (List.not_mem_nil a)
  | cons x xs ih =>
    intro r h a ha b hb
    rw [List.mapM_cons] at h
    cases hfx : f x with
    | none => rw [hfx] at h; exact absurd h (by simp)
    | some y =>
      rw [hfx] at h
      cases hxs : xs.mapM f with
      | none => rw [hxs] at h; exact absurd h (by simp)
      | some ys =>
        rw [hxs] at h
        have hr : y :: ys = r := by injection h
        subst hr
        rcases List.mem_cons.mp ha with rfl | ha'
        · rw [hfx] at hb
          injection hb with hb
          exact hb ▸ List.mem_cons_self y ys
        · exact List.mem_cons_of_mem y (ih hxs a ha' b hb)

/-- Every `rgba_{i}_{j}.tiff` tile name matches the cleanup glob
`rgba_*`. -/
theorem matchRgbaUnderscore_encodeName (i j : Nat) :
    matchRgbaUnderscore (encodeName ['r', 'g', 'b', 'a'] i j tiffExt) = true := by
  have he : encodeName ['r', 'g', 'b', 'a'] i j tiffExt =
      ['r', 'g', 'b', 'a', '_'] ++ (natRepr i ++ '_' :: natRepr j ++ tiffExt) := by
    simp [encodeName]
  unfold matchRgbaUnderscore
  rw [he, List.isPrefixOf_iff_prefix]
  exact List.prefix_append _ _

theorem natRepr_head_digit (n : Nat) :
    ∃ c cs, natRepr n = c :: cs ∧ isDigitCh c = true := by
  cases hnr : natRepr n with
  | nil => exact absurd hnr (natRepr_ne_nil n)
  | cons c cs =>
    refine ⟨c, cs, rfl, mem_natRepr_isDigit (n := n) ?_⟩
    rw [hnr]
    exact List.mem_cons_self c cs

theorem zfill_head_digit (k n : Nat) :
    ∃ c cs, zfill k n = c :: cs ∧ isDigitCh c = true := by
  unfold zfill
  cases hrep : List.replicate (k - (natRepr n).length) '0' with
  | nil =>
    obtain ⟨c, cs, hc, hd⟩ := natRepr_head_digit n
    exact ⟨c, cs, by rw [List.nil_append, hc], hd⟩
  | cons z zs =>
    have hz : z = '0' := by
      apply List.eq_of_mem_replicate (n := k - (natRepr n).length)
      rw [hrep]
      exact List.mem_cons_self z zs
    refine ⟨z, zs ++ natRepr n, by rw [List.cons_append], ?_⟩
    rw [hz]
    decide

theorem head_digit_append {s : List Char} (t : List Char)
    (h : ∃ c cs, s = c :: cs ∧ isDigitCh c = true) :
    ∃ c cs, s ++ t = c :: cs ∧ isDigitCh c = true := by
  obtain ⟨c, cs, rfl, hd⟩ := h
  exact ⟨c, cs ++ t, rfl, hd⟩

theorem timeStr_head_digit (Y Mo D I Mi S : Nat) (pm : Bool) :
    ∃ c cs, timeStr Y Mo D I Mi S pm = c :: cs ∧ isDigitCh c = true := by
  unfold timeStr
  exact head_digit_append _ (head_digit_append _ (head_digit_append _ (head_digit_append _
    (head_digit_append _ (head_digit_append _ (zfill_head_digit 4 Y))))))

theorem compositeName_head_digit (Y Mo D I Mi S : Nat) (pm : Bool) (ext : FName) :
    ∃ c cs, compositeName (timeStr Y Mo D I Mi S pm) ext = c :: cs ∧ isDigitCh c = true := by
  unfold compositeName
  exact head_digit_append _ (head_digit_append _ (timeStr_head_digit Y Mo D I Mi S pm))

theorem compositeName_not_matchRgbaUnderscore (Y Mo D I Mi S : Nat) (pm : Bool)
    (ext : FName) :
    matchRgbaUnderscore (compositeName (timeStr Y Mo D I Mi S pm) ext) = false := by
  obtain ⟨c, cs, hc, hd⟩ := compositeName_head_digit Y Mo D I Mi S pm ext
  rw [hc]
  have hne : ('r' == c) = false := by
    apply beq_eq_false_iff_ne.mpr
    intro he
    rw [← he] at hd
    exact absurd hd (by decide)
  show (('r' == c) && List.isPrefixOf ['g', 'b', 'a', '_'] cs) = false
  rw [hne, Bool.false_and]

theorem compositeName_ne_rgbaTile (Y Mo D I Mi S : Nat) (pm : Bool) (ext : FName)
    (i j : Nat) :
    compositeName (timeStr Y Mo D I Mi S pm) ext ≠
      encodeName ['r', 'g', 'b', 'a'] i j tiffExt := by
  obtain ⟨c, cs, hc, hd⟩ := compositeName_head_digit Y Mo D I Mi S pm ext
  rw [hc]
  intro h
  have hr : c = 'r' := by injection h
  rw [hr] at hd
  exact absurd hd (by decide)

/-- C8: after `stitch(cleanup_tiles=True)` saves the composite, every
`rgba_{r}_{c}.tiff` file whose coordinate was in the constructor's
tile-present index is gone from the folder, and the freshly saved
composite file is intact.  (`hscan` states that every `rgba_`-prefixed
name in the folder decodes — the re-scan would otherwise raise before
deleting anything.) -/
theorem stitch_cleanup_deletes_indexed_tiles (fs : FS)
    (Y Mo D I Mi S : Nat) (pm : Bool) (ext : FName)
    (idx : List (Nat × Nat)) (r c : Nat) (canvas : Canvas)
    (hidx : get_img_filelist fs matchRgbaStarTiff = some idx)
    (hrc : (r, c) ∈ idx)
    (hscan : ∀ n ∈ fs.map Prod.fst, matchRgbaUnderscore n = true → (decodeName n).isSome) :
    ∃ fs', stitchCleanupFS noFail fs (timeStr Y Mo D I Mi S pm) ext canvas = some fs'
      ∧ encodeName ['r', 'g', 'b', 'a'] r c tiffExt ∉ fs'.map Prod.fst
      ∧ compositeName (timeStr Y Mo D I Mi S pm) ext ∈ fs'.map Prod.fst := by
  have hcompfalse := compositeName_not_matchRgbaUnderscore Y Mo D I Mi S pm ext
  have hfilter : ((((compositeName (timeStr Y Mo D I Mi S pm) ext, Img.rgba canvas) :: fs
        : FS).map Prod.fst).filter matchRgbaUnderscore) =
      (fs.map Prod.fst).filter matchRgbaUnderscore := by
    rw [List.map_cons, List.filter_cons]
    rw [if_neg (by rw [hcompfalse]; simp)]
  obtain ⟨res, hres⟩ := mapM_isSome_of_forall decodeName
    ((fs.map Prod.fst).filter matchRgbaUnderscore)
    fun n hn => hscan n (List.mem_of_mem_filter hn) (List.of_mem_filter hn)
  have hscan1 : get_img_filelist
      ((compositeName (timeStr Y Mo D I Mi S pm) ext, Img.rgba canvas) :: fs)
      matchRgbaUnderscore = some (sortPairs res) := by
    unfold get_img_filelist
    rw [hfilter, hres]
    rfl
  refine ⟨delete_tiles noFail (sortPairs res)
    ((compositeName (timeStr Y Mo D I Mi S pm) ext, Img.rgba canvas) :: fs), ?_, ?_, ?_⟩
  · unfold stitchCleanupFS
    dsimp only
    rw [hscan1]
  · intro hmem
    rw [List.mem_map] at hmem
    obtain ⟨e, he, hname⟩ := hmem
    rw [mem_delete_tiles] at he
    obtain ⟨he1, he2⟩ := he
    have hn_mem : e.1 ∈ (fs.map Prod.fst).filter matchRgbaUnderscore := by
      rw [← hfilter]
      exact List.mem_filter.mpr ⟨List.mem_map_of_mem Prod.fst he1,
        by rw [hname]; exact matchRgbaUnderscore_encodeName r c⟩
    have hdec : decodeName e.1 = some (r, c) := by
      rw [hname]
      exact decodeName_encodeName (by decide) r c
    have hrc_res : (r, c) ∈ res := mem_of_mapM_some hres e.1 hn_mem (r, c) hdec
    have hfalse : noFail e.1 = true :=
      he2 ⟨(r, c), mem_sortPairs.mpr hrc_res, by rw [hname]⟩
    simp [noFail] at hfalse
  · have hsurv : (compositeName (timeStr Y Mo D I Mi S pm) ext, Img.rgba canvas) ∈
        delete_tiles noFail (sortPairs res)
          ((compositeName (timeStr Y Mo D I Mi S pm) ext, Img.rgba canvas) :: fs) := by
      apply mem_delete_tiles.mpr
      refine ⟨List.mem_cons_self _ _, ?_⟩
      rintro ⟨p, hp, hn⟩
      exact absurd hn (compositeName_ne_rgbaTile Y Mo D I Mi S pm ext p.1 p.2)
    exact List.mem_map_of_mem Prod.fst hsurv

/-- Witness for C8: a folder holding the single tile `rgba_0_0.tiff`,
stitched at timestamp 2023-10-05 09:30:59 AM with extension `.png`. -/
theorem stitch_cleanup_deletes_indexed_tiles_witness :
    ∃ fs', stitchCleanupFS noFail
        [(encodeName ['r', 'g', 'b', 'a'] 0 0 tiffExt, Img.rgba fun _ _ => (0, 0, 0, 0))]
        (timeStr 2023 10 5 9 30 59 false) ['.', 'p', 'n', 'g'] emptyCanvas = some fs'
      ∧ encodeName ['r', 'g', 'b', 'a'] 0 0 tiffExt ∉ fs'.map Prod.fst
      ∧ compositeName (timeStr 2023 10 5 9 30 59 false) ['.', 'p', 'n', 'g'] ∈
          fs'.map Prod.fst :=
  stitch_cleanup_deletes_indexed_tiles
    [(encodeName ['r', 'g', 'b', 'a'] 0 0 tiffExt, Img.rgba fun _ _ => (0, 0, 0, 0))]
    2023 10 5 9 30 59 false ['.', 'p', 'n', 'g'] [(0, 0)] 0 0 emptyCanvas
    rfl (by decide) (by decide)

/-! ### Round trip: glob matching on the tiler's filenames -/

theorem natRepr_length_pos (n : Nat) : 0 < (natRepr n).length :=
  List.length_pos.mpr (natRepr_ne_nil n)

theorem encodeName_length (pref : FName) (i j : Nat) (ext : FName) :
    (encodeName pref i j ext).length =
      pref.length + (1 + (natRepr i).length) + (1 + (natRepr j).length) + ext.length := by
  simp [encodeName]
  omega

theorem tiffExt_isSuffixOf_encodeName (pref : FName) (i j : Nat) :
    tiffExt.isSuffixOf (encodeName pref i j tiffExt) = true := by
  rw [List.isSuffixOf_iff_suffix]
  exact List.suffix_append _ _

theorem pref_isPrefixOf_encodeName (pref : FName) (i j : Nat) (ext : FName) :
    pref.isPrefixOf (encodeName pref i j ext) = true := by
  rw [List.isPrefixOf_iff_prefix]
  unfold encodeName
  exact ((List.prefix_append _ _).trans (List.prefix_append _ _)).trans
    (List.prefix_append _ _)

theorem encodeName_head? (c : Char) (pr : FName) (i j : Nat) (ext : FName) :
    (encodeName (c :: pr) i j ext).head? = some c := by
  simp [encodeName]

theorem isPrefixOf_single_false {c : Char} {n : FName} (hh : n.head? = some c)
    (hne : ('r' == c) = false) : (['r'].isPrefixOf n) = false := by
  cases n with
  | nil => simp at hh
  | cons m ms =>
    have hmc : m = c := by
      simp only [List.head?_cons, Option.some.injEq] at hh
      exact hh
    subst hmc
    show (('r' == m) && List.isPrefixOf [] ms) = false
    rw [hne, Bool.false_and]

theorem matchRStar_r (i j : Nat) :
    matchRStar (encodeName ['r'] i j tiffExt) = true := by
  unfold matchRStar
  rw [pref_isPrefixOf_encodeName, tiffExt_isSuffixOf_encodeName, Bool.true_and,
    Bool.true_and, decide_eq_true_eq]
  have h1 := natRepr_length_pos i
  have h2 := natRepr_length_pos j
  have h3 := encodeName_length ['r'] i j tiffExt
  have h4 : tiffExt.length = 5 := rfl
  rw [h4] at h3
  simp only [List.length_cons, List.length_nil] at h3
  omega

theorem matchRStar_not_r {c : Char} (pr : FName) (hne : ('r' == c) = false)
    (i j : Nat) : matchRStar (encodeName (c :: pr) i j tiffExt) = false := by
  unfold matchRStar
  rw [isPrefixOf_single_false (encodeName_head? c pr i j tiffExt) hne,
    Bool.false_and, Bool.false_and]

theorem matchRgbaStarTiff_rgba (i j : Nat) :
    matchRgbaStarTiff (encodeName ['r', 'g', 'b', 'a'] i j tiffExt) = true := by
  unfold matchRgbaStarTiff
  rw [pref_isPrefixOf_encodeName, tiffExt_isSuffixOf_encodeName, Bool.true_and,
    Bool.true_and, decide_eq_true_eq]
  have h1 := natRepr_length_pos i
  have h2 := natRepr_length_pos j
  have h3 := encodeName_length ['r', 'g', 'b', 'a'] i j tiffExt
  have h4 : tiffExt.length = 5 := rfl
  rw [h4] at h3
  simp only [List.length_cons, List.length_nil] at h3
  omega

theorem isPrefixOf_rgba_false_of_head {c : Char} {n : FName} (hh : n.head? = some c)
    (hne : ('r' == c) = false) : (['r', 'g', 'b', 'a'].isPrefixOf n) = false := by
  cases n with
  | nil => simp at hh
  | cons m ms =>
    have hmc : m = c := by
      simp only [List.head?_cons, Option.some.injEq] at hh
      exact hh
    subst hmc
    show (('r' == m) && List.isPrefixOf ['g', 'b', 'a'] ms) = false
    rw [hne, Bool.false_and]

theorem matchRgbaStarTiff_chan_false {ch : FName}
    (hch : ch ∈ [['r'], ['g'], ['b'], ['a']]) (i j : Nat) :
    matchRgbaStarTiff (encodeName ch i j tiffExt) = false := by
  have hgen : ∀ (c : Char) (pr : FName), ('r' == c) = false →
      matchRgbaStarTiff (encodeName (c :: pr) i j tiffExt) = false := by
    intro c pr hne
    unfold matchRgbaStarTiff
    rw [isPrefixOf_rgba_false_of_head (encodeName_head? c pr i j tiffExt) hne,
      Bool.false_and, Bool.false_and]
  fin_cases hch
  · have hform : encodeName ['r'] i j tiffExt =
        'r' :: '_' :: (natRepr i ++ '_' :: natRepr j ++ tiffExt) := by
      simp [encodeName]
    unfold matchRgbaStarTiff
    rw [hform]
    rw [show (['r', 'g', 'b', 'a'].isPrefixOf
        ('r' :: '_' :: (natRepr i ++ '_' :: natRepr j ++ tiffExt))) = false from rfl]
    rw [Bool.false_and, Bool.false_and]
  · exact hgen 'g' [] (by decide)
  · exact hgen 'b' [] (by decide)
  · exact hgen 'a' [] (by decide)

/-! ### Round trip: scans, lookups, channel-file deletion -/

theorem exists_of_mem_mapM {α β : Type} {f : α → Option β} :
    ∀ {l : List α} {r : List β}, l.mapM f = some r →
      ∀ b ∈ r, ∃ a ∈ l, f a = some b := by
  intro l
  induction l with
  | nil =>
    intro r h b hb
    rw [List.mapM_nil] at h
    have hr : ([] : List β) = r := by injection h
    subst hr
    exact absurd hb (List.not_mem_nil b)
  | cons x xs ih =>
    intro r h b hb
    rw [List.mapM_cons] at h
    cases hfx : f x with
    | none => rw [hfx] at h; exact absurd h (by simp)
    | some y =>
      rw [hfx] at h
      cases hxs : xs.mapM f with
      | none => rw [hxs] at h; exact absurd h (by simp)
      | some ys =>
        rw [hxs] at h
        have hr : y :: ys = r := by injection h
        subst hr
        rcases List.mem_cons.mp hb with rfl | hb'
        · exact ⟨x, List.mem_cons_self x xs, hfx⟩
        · obtain ⟨a, ha, hfa⟩ := ih hxs b hb'
          exact ⟨a, List.mem_cons_of_mem x ha, hfa⟩

/-- Membership in a successful directory scan. -/
theorem mem_get_img_filelist {fs : FS} {pat : FName → Bool} {L : List (Nat × Nat)}
    (h : get_img_filelist fs pat = some L) (q : Nat × Nat) :
    q ∈ L ↔ ∃ n ∈ fs.map Prod.fst, pat n = true ∧ decodeName n = some q := by
  unfold get_img_filelist at h
  cases hm : ((fs.map Prod.fst).filter pat).mapM decodeName with
  | none => rw [hm] at h; exact absurd h (by simp)
  | some res =>
    rw [hm] at h
    have hL : L = sortPairs res := by
      injection h with h'
      exact h'.symm
    subst hL
    rw [mem_sortPairs]
    constructor
    · intro hq
      obtain ⟨n, hn, hdec⟩ := exists_of_mem_mapM hm q hq
      exact ⟨n, List.mem_of_mem_filter hn, List.of_mem_filter hn, hdec⟩
    · rintro ⟨n, hn, hpat, hdec⟩
      exact mem_of_mapM_some hm n (List.mem_filter.mpr ⟨hn, hpat⟩) q hdec

/-- A successful scan exists as soon as every matching name decodes. -/
theorem get_img_filelist_isSome {fs : FS} {pat : FName → Bool}
    (h : ∀ n ∈ fs.map Prod.fst, pat n = true → (decodeName n).isSome) :
    ∃ L, get_img_filelist fs pat = some L := by
  obtain ⟨res, hres⟩ := mapM_isSome_of_forall decodeName ((fs.map Prod.fst).filter pat)
    fun n hn => h n (List.mem_of_mem_filter hn) (List.of_mem_filter hn)
  refine ⟨sortPairs res, ?_⟩
  unfold get_img_filelist
  rw [hres]
  rfl

/-- First-match lookup finds the value of a present entry as soon as every
entry of that name carries the same value (write order then no longer
matters). -/
theorem fsLookup_of_mem_unique_val {fs : FS} {n : FName} {img : Img}
    (hmem : (n, img) ∈ fs) (huniq : ∀ e ∈ fs, e.1 = n → e.2 = img) :
    fsLookup fs n = some img := by
  induction fs with
  | nil => exact absurd hmem (List.not_mem_nil _)
  | cons e rest ih =>
    obtain ⟨m, im⟩ := e
    show (if m = n then some im else fsLookup rest n) = some img
    by_cases hmn : m = n
    · rw [if_pos hmn]
      have := huniq (m, im) (List.mem_cons_self _ _) hmn
      simp only at this
      rw [this]
    · rw [if_neg hmn]
      rcases List.mem_cons.mp hmem with heq | hmem'
      · exact absurd (congrArg Prod.fst heq.symm) hmn
      · exact ih hmem' fun e he h1 => huniq e (List.mem_cons_of_mem _ he) h1

theorem fsLookupGray_of_mem_unique {fs : FS} {n : FName} {t : Nat → Nat → Nat}
    (hmem : (n, Img.gray t) ∈ fs) (huniq : ∀ e ∈ fs, e.1 = n → e.2 = Img.gray t) :
    fsLookupGray fs n = some t := by
  unfold fsLookupGray
  rw [fsLookup_of_mem_unique_val hmem huniq]

/-- Membership after `delete_channel_files`: an entry survives iff it was
present and is not one of the four channel files of a listed coordinate
(under the no-failure oracle of `generate_tiles`). -/
theorem mem_delete_channel_files {files : List (Nat × Nat)} {fs : FS}
    {e : FName × Img} :
    e ∈ delete_channel_files noFail files fs ↔
      e ∈ fs ∧ ¬∃ p ∈ files, ∃ ch ∈ [['r'], ['g'], ['b'], ['a']],
        e.1 = encodeName ch p.1 p.2 tiffExt := by
  induction files generalizing fs with
  | nil =>
    simp only [delete_channel_files, List.foldl_nil]
    constructor
    · intro h
      refine ⟨h, ?_⟩
      rintro ⟨p, hp, -⟩
      exact List.not_mem_nil p hp
    · exact fun h => h.1
  | cons p rest ih =>
    have hstep : ∀ (fs' : FS) (n : FName),
        e ∈ delete_file_safe noFail fs' n ↔ e ∈ fs' ∧ e.1 ≠ n := by
      intro fs' n
      rw [mem_delete_file_safe]
      constructor
      · rintro ⟨h1, h2⟩
        exact ⟨h1, fun he => by simpa [noFail] using h2 he⟩
      · rintro ⟨h1, h2⟩
        exact ⟨h1, fun he => absurd he h2⟩
    have hgoal : delete_channel_files noFail (p :: rest) fs =
        delete_channel_files noFail rest
          (delete_file_safe noFail
            (delete_file_safe noFail
              (delete_file_safe noFail
                (delete_file_safe noFail fs (encodeName ['r'] p.1 p.2 tiffExt))
                (encodeName ['g'] p.1 p.2 tiffExt))
              (encodeName ['b'] p.1 p.2 tiffExt))
            (encodeName ['a'] p.1 p.2 tiffExt)) := rfl
    rw [hgoal, ih, hstep, hstep, hstep, hstep]
    constructor
    · rintro ⟨⟨⟨⟨⟨h0, hr⟩, hg⟩, hb⟩, ha⟩, hrest⟩
      refine ⟨h0, ?_⟩
      rintro ⟨q, hq, ch, hch, hn⟩
      rcases List.mem_cons.mp hq with rfl | hq'
      · fin_cases hch
        · exact hr hn
        · exact hg hn
        · exact hb hn
        · exact ha hn
      · exact hrest ⟨q, hq', ch, hch, hn⟩
    · rintro ⟨h0, hno⟩
      have hch4 : ∀ ch ∈ [['r'], ['g'], ['b'], ['a']],
          e.1 ≠ encodeName ch p.1 p.2 tiffExt :=
        fun ch hch hn => hno ⟨p, List.mem_cons_self p rest, ch, hch, hn⟩
      refine ⟨⟨⟨⟨⟨h0, hch4 ['r'] (by simp)⟩, hch4 ['g'] (by simp)⟩,
        hch4 ['b'] (by simp)⟩, hch4 ['a'] (by simp)⟩, ?_⟩
      rintro ⟨q, hq, ch, hch, hn⟩
      exact hno ⟨q, List.mem_cons_of_mem p hq, ch, hch, hn⟩

/-- A grid cell's window fits inside the partitioned region. -/
theorem grid_cell_bound {h w d : Nat} (hd : 0 < d) {i j : Nat}
    (hij : (i, j) ∈ grid h w d) :
    i + d ≤ h - h % d ∧ j + d ≤ w - w % d := by
  obtain ⟨⟨a, rfl⟩, hi, ⟨b, rfl⟩, hj⟩ := (mem_grid hd).mp hij
  have hh : h - h % d = d * (h / d) := by have := Nat.div_add_mod h d; omega
  have hw : w - w % d = d * (w / d) := by have := Nat.div_add_mod w d; omega
  rw [hh] at hi ⊢
  rw [hw] at hj ⊢
  have ha : a < h / d := Nat.lt_of_mul_lt_mul_left hi
  have hb : b < w / d := Nat.lt_of_mul_lt_mul_left hj
  constructor
  · calc d * a + d = d * (a + 1) := by ring
      _ ≤ d * (h / d) := Nat.mul_le_mul_left d ha
  · calc d * b + d = d * (b + 1) := by ring
      _ ≤ d * (w / d) := Nat.mul_le_mul_left d hb

/-! ### Round trip: the directory after the four channel tilers ran -/

/-- The file entry a channel tiler writes for grid cell `p`. -/
def chanEntry (pref : FName) (arr : Nat → Nat → Nat) (p : Nat × Nat) : FName × Img :=
  (encodeName pref p.1 p.2 tiffExt, Img.gray (crop arr p.1 p.2))

/-- The file entry the channel merger writes for grid cell `p`. -/
def rgbaEntry (rA gA bA aA : Nat → Nat → Nat) (p : Nat × Nat) : FName × Img :=
  (encodeName ['r', 'g', 'b', 'a'] p.1 p.2 tiffExt,
    Img.rgba (mergeRGBA (crop rA p.1 p.2) (crop gA p.1 p.2) (crop bA p.1 p.2)
      (crop aA p.1 p.2)))

/-- The directory after all four channels were tiled without a skip. -/
def fourStage (rA gA bA aA : Nat → Nat → Nat) (h w d : Nat) : FS :=
  ((grid h w d).map (chanEntry ['a'] aA)).reverse ++
    (((grid h w d).map (chanEntry ['b'] bA)).reverse ++
      (((grid h w d).map (chanEntry ['g'] gA)).reverse ++
        (((grid h w d).map (chanEntry ['r'] rA)).reverse ++ [])))

theorem saveCond_all {arr : Nat → Nat → Nat} {h w d : Nat} (hd : 0 < d)
    (hbound : ∀ y < h, ∀ x < w, arr y x ≤ 255)
    (hnb : ∀ p ∈ grid h w d, ∃ y < d, ∃ x < d, arr (p.1 + y) (p.2 + x) ≠ 255) :
    ∀ p ∈ grid h w d, saveCond (crop arr p.1 p.2) d = true := by
  intro p hp
  obtain ⟨y, hy, x, hx, hne⟩ := hnb p hp
  apply saveCond_iff.mpr
  refine ⟨y, hy, x, hx, ?_⟩
  have hpp : (p.1, p.2) ∈ grid h w d := by rwa [Prod.mk.eta]
  have hb := grid_cell_bound hd hpp
  have hyb : p.1 + y < h := by
    have := Nat.sub_le h (h % d)
    omega
  have hxb : p.2 + x < w := by
    have := Nat.sub_le w (w % d)
    omega
  have := hbound (p.1 + y) hyb (p.2 + x) hxb
  simp only [crop]
  omega

theorem tile_rgb_all {arr : Nat → Nat → Nat} {h w d : Nat} (pref : FName) (fs : FS)
    (hall : ∀ p ∈ grid h w d, saveCond (crop arr p.1 p.2) d = true) :
    tile_rgb arr h w d pref fs =
      ((grid h w d).map (chanEntry pref arr)).reverse ++ fs := by
  rw [tile_rgb_eq, List.filter_eq_self.mpr hall]
  rfl

theorem tile_alpha_all {imgFiles : List (Nat × Nat)} {arr : Nat → Nat → Nat}
    {h w d : Nat} (pref : FName) (fs : FS)
    (hall : ∀ p ∈ grid h w d, p ∈ imgFiles) :
    tile_alpha imgFiles arr h w d pref fs =
      ((grid h w d).map (chanEntry pref arr)).reverse ++ fs := by
  rw [tile_alpha_eq, List.filter_eq_self.mpr fun a ha => decide_eq_true (hall a ha)]
  rfl

theorem mem_fourStage {rA gA bA aA : Nat → Nat → Nat} {h w d : Nat}
    {e : FName × Img} :
    e ∈ fourStage rA gA bA aA h w d ↔
      ∃ p ∈ grid h w d, e = chanEntry ['r'] rA p ∨ e = chanEntry ['g'] gA p ∨
        e = chanEntry ['b'] bA p ∨ e = chanEntry ['a'] aA p := by
  unfold fourStage
  simp only [List.mem_append, List.mem_reverse, List.mem_map, List.not_mem_nil,
    or_false]
  constructor
  · rintro (⟨p, hp, rfl⟩ | ⟨p, hp, rfl⟩ | ⟨p, hp, rfl⟩ | ⟨p, hp, rfl⟩)
    · exact ⟨p, hp, Or.inr (Or.inr (Or.inr rfl))⟩
    · exact ⟨p, hp, Or.inr (Or.inr (Or.inl rfl))⟩
    · exact ⟨p, hp, Or.inr (Or.inl rfl)⟩
    · exact ⟨p, hp, Or.inl rfl⟩
  · rintro ⟨p, hp, rfl | rfl | rfl | rfl⟩
    · exact Or.inr (Or.inr (Or.inr ⟨p, hp, rfl⟩))
    · exact Or.inr (Or.inr (Or.inl ⟨p, hp, rfl⟩))
    · exact Or.inr (Or.inl ⟨p, hp, rfl⟩)
    · exact Or.inl ⟨p, hp, rfl⟩

theorem chanEntry_name_inj {ch ch' : FName} {arr' : Nat → Nat → Nat}
    {q p : Nat × Nat} (hch : '_' ∉ ch) (hch' : '_' ∉ ch')
    (hn : (chanEntry ch' arr' q).1 = encodeName ch p.1 p.2 tiffExt) :
    ch' = ch ∧ q = p := by
  unfold chanEntry at hn
  obtain ⟨h1, h2, h3⟩ := encodeName_inj hch' hch hn
  refine ⟨h1, ?_⟩
  cases q; cases p
  simp only at h2 h3
  rw [h2, h3]

theorem rgbaEntry_name_inj {ch : FName} {rA gA bA aA : Nat → Nat → Nat}
    {q p : Nat × Nat} (hch : '_' ∉ ch)
    (hn : (rgbaEntry rA gA bA aA q).1 = encodeName ch p.1 p.2 tiffExt) :
    (['r', 'g', 'b', 'a'] : FName) = ch ∧ q = p := by
  unfold rgbaEntry at hn
  obtain ⟨h1, h2, h3⟩ := encodeName_inj (by decide) hch hn
  refine ⟨h1, ?_⟩
  cases q; cases p
  simp only at h2 h3
  rw [h2, h3]

/-- Looking up a channel file in the four-stage directory. -/
theorem fourStage_lookup {rA gA bA aA : Nat → Nat → Nat} {h w d : Nat}
    (ch : FName) (chA : Nat → Nat → Nat)
    (hch : (ch = ['r'] ∧ chA = rA) ∨ (ch = ['g'] ∧ chA = gA) ∨
      (ch = ['b'] ∧ chA = bA) ∨ (ch = ['a'] ∧ chA = aA))
    {p : Nat × Nat} (hp : p ∈ grid h w d) :
    fsLookupGray (fourStage rA gA bA aA h w d) (encodeName ch p.1 p.2 tiffExt) =
      some (crop chA p.1 p.2) := by
  have hchu : '_' ∉ ch := by
    rcases hch with ⟨rfl, -⟩ | ⟨rfl, -⟩ | ⟨rfl, -⟩ | ⟨rfl, -⟩ <;> decide
  apply fsLookupGray_of_mem_unique
  · apply mem_fourStage.mpr
    refine ⟨p, hp, ?_⟩
    rcases hch with ⟨rfl, rfl⟩ | ⟨rfl, rfl⟩ | ⟨rfl, rfl⟩ | ⟨rfl, rfl⟩
    · exact Or.inl rfl
    · exact Or.inr (Or.inl rfl)
    · exact Or.inr (Or.inr (Or.inl rfl))
    · exact Or.inr (Or.inr (Or.inr rfl))
  · intro e he hn
    obtain ⟨q, hq, hcase⟩ := mem_fourStage.mp he
    rcases hch with ⟨rfl, rfl⟩ | ⟨rfl, rfl⟩ | ⟨rfl, rfl⟩ | ⟨rfl, rfl⟩ <;>
    rcases hcase with rfl | rfl | rfl | rfl <;>
    · first
      | (obtain ⟨hpr, rfl⟩ := chanEntry_name_inj hchu (by decide) hn
         first
           | rfl
           | exact absurd hpr (by decide))

/-! ### Round trip: the merge loop on a complete channel set -/

theorem channels_to_RGBA_ok {rT gT bT aT : Nat × Nat → Nat → Nat → Nat} :
    ∀ (L : List (Nat × Nat)) (fs : FS),
      (∀ p ∈ L, fsLookupGray fs (encodeName ['r'] p.1 p.2 tiffExt) = some (rT p)) →
      (∀ p ∈ L, fsLookupGray fs (encodeName ['g'] p.1 p.2 tiffExt) = some (gT p)) →
      (∀ p ∈ L, fsLookupGray fs (encodeName ['b'] p.1 p.2 tiffExt) = some (bT p)) →
      (∀ p ∈ L, fsLookupGray fs (encodeName ['a'] p.1 p.2 tiffExt) = some (aT p)) →
      channels_to_RGBA L fs =
        .ok ((L.map fun p => (encodeName ['r', 'g', 'b', 'a'] p.1 p.2 tiffExt,
          Img.rgba (mergeRGBA (rT p) (gT p) (bT p) (aT p)))).reverse ++ fs) := by
  intro L
  induction L with
  | nil => intro fs _ _ _ _; rfl
  | cons p rest ih =>
    intro fs hr hg hb ha
    obtain ⟨i, j⟩ := p
    show channels_to_RGBA ((i, j) :: rest) fs = _
    unfold channels_to_RGBA
    rw [hr (i, j) (List.mem_cons_self _ _), hg (i, j) (List.mem_cons_self _ _),
      hb (i, j) (List.mem_cons_self _ _), ha (i, j) (List.mem_cons_self _ _)]
    dsimp only
    rw [ih ((encodeName ['r', 'g', 'b', 'a'] i j tiffExt,
        Img.rgba (mergeRGBA (rT (i, j)) (gT (i, j)) (bT (i, j)) (aT (i, j)))) :: fs)
      (fun q hq => by
        rw [fsLookupGray_cons_rgba (by simp) i j q.1 q.2]
        exact hr q (List.mem_cons_of_mem _ hq))
      (fun q hq => by
        rw [fsLookupGray_cons_rgba (by simp) i j q.1 q.2]
        exact hg q (List.mem_cons_of_mem _ hq))
      (fun q hq => by
        rw [fsLookupGray_cons_rgba (by simp) i j q.1 q.2]
        exact hb q (List.mem_cons_of_mem _ hq))
      (fun q hq => by
        rw [fsLookupGray_cons_rgba (by simp) i j q.1 q.2]
        exact ha q (List.mem_cons_of_mem _ hq))]
    rw [List.map_cons, List.reverse_cons, List.append_assoc, List.singleton_append]

/-! ### Round trip: the stitch loop and pasted pixels -/

/-- Grid cell `p`'s paste box covers pixel `(x, y)`. -/
def covers (d : Nat) (p : Nat × Nat) (x y : Nat) : Prop :=
  p.2 ≤ x ∧ x < p.2 + d ∧ p.1 ≤ y ∧ y < p.1 + d

theorem paste_at {c : Canvas} {t : Nat → Nat → Nat × Nat × Nat × Nat}
    {p : Nat × Nat} {d x y : Nat} (h : covers d p x y) :
    paste c t p.1 p.2 d x y = t (y - p.1) (x - p.2) := by
  unfold paste
  rw [if_pos ⟨h.1, h.2.1, h.2.2.1, h.2.2.2⟩]

theorem paste_away {c : Canvas} {t : Nat → Nat → Nat × Nat × Nat × Nat}
    {p : Nat × Nat} {d x y : Nat} (h : ¬covers d p x y) :
    paste c t p.1 p.2 d x y = c x y := by
  unfold paste
  rw [if_neg fun hc => h ⟨hc.1, hc.2.1, hc.2.2.1, hc.2.2.2⟩]

theorem foldl_paste_untouched {d : Nat} {T : Nat × Nat → Nat → Nat → Nat × Nat × Nat × Nat}
    {x y : Nat} :
    ∀ (l : List (Nat × Nat)) (c : Canvas), (∀ p ∈ l, ¬covers d p x y) →
      (l.foldl (fun c p => paste c (T p) p.1 p.2 d) c) x y = c x y := by
  intro l
  induction l with
  | nil => intro c _; rfl
  | cons q rest ih =>
    intro c hno
    rw [List.foldl_cons]
    rw [ih _ fun p hp => hno p (List.mem_cons_of_mem q hp)]
    exact paste_away (hno q (List.mem_cons_self q rest))

theorem foldl_paste_const {d : Nat} {T : Nat × Nat → Nat → Nat → Nat × Nat × Nat × Nat}
    {p0 : Nat × Nat} {x y : Nat} :
    ∀ (l : List (Nat × Nat)) (c : Canvas),
      (∀ p ∈ l, covers d p x y → p = p0) →
      c x y = T p0 (y - p0.1) (x - p0.2) →
      (l.foldl (fun c p => paste c (T p) p.1 p.2 d) c) x y =
        T p0 (y - p0.1) (x - p0.2) := by
  intro l
  induction l with
  | nil => intro c _ hc; exact hc
  | cons q rest ih =>
    intro c huniq hc
    rw [List.foldl_cons]
    apply ih _ fun p hp hcov => huniq p (List.mem_cons_of_mem q hp) hcov
    by_cases hq : covers d q x y
    · have hq0 : q = p0 := huniq q (List.mem_cons_self q rest) hq
      subst hq0
      exact paste_at hq
    · rw [paste_away hq]
      exact hc

theorem foldl_paste_covered {d : Nat} {T : Nat × Nat → Nat → Nat → Nat × Nat × Nat × Nat}
    {p0 : Nat × Nat} {x y : Nat} :
    ∀ (l : List (Nat × Nat)) (c : Canvas),
      (∀ p ∈ l, covers d p x y → p = p0) → p0 ∈ l → covers d p0 x y →
      (l.foldl (fun c p => paste c (T p) p.1 p.2 d) c) x y =
        T p0 (y - p0.1) (x - p0.2) := by
  intro l
  induction l with
  | nil => intro c _ h0 _; exact absurd h0 (List.not_mem_nil p0)
  | cons q rest ih =>
    intro c huniq h0 hcov
    rw [List.foldl_cons]
    by_cases hq : covers d q x y
    · have hq0 : q = p0 := huniq q (List.mem_cons_self q rest) hq
      subst hq0
      apply foldl_paste_const rest _ (fun p hp hcv => huniq p (List.mem_cons_of_mem q hp) hcv)
      exact paste_at hq
    · have h0' : p0 ∈ rest := by
        rcases List.mem_cons.mp h0 with rfl | h0'
        · exact absurd hcov hq
        · exact h0'
      exact ih (paste c (T q) q.1 q.2 d)
        (fun p hp hcv => huniq p (List.mem_cons_of_mem q hp) hcv) h0' hcov

theorem covers_unique {d : Nat} (hd : 0 < d) {p q : Nat × Nat} {x y : Nat}
    (hpd : d ∣ p.1 ∧ d ∣ p.2) (hqd : d ∣ q.1 ∧ d ∣ q.2)
    (hp : covers d p x y) (hq : covers d q x y) : p = q := by
  obtain ⟨⟨a, ha⟩, ⟨b, hb⟩⟩ := hpd
  obtain ⟨⟨a', ha'⟩, ⟨b', hb'⟩⟩ := hqd
  obtain ⟨hp1, hp2, hp3, hp4⟩ := hp
  obtain ⟨hq1, hq2, hq3, hq4⟩ := hq
  have e1 : y / d = a := Nat.div_eq_of_lt_le (by rw [Nat.mul_comm]; omega)
    (by rw [Nat.succ_mul, Nat.mul_comm]; omega)
  have e2 : y / d = a' := Nat.div_eq_of_lt_le (by rw [Nat.mul_comm]; omega)
    (by rw [Nat.succ_mul, Nat.mul_comm]; omega)
  have e3 : x / d = b := Nat.div_eq_of_lt_le (by rw [Nat.mul_comm]; omega)
    (by rw [Nat.succ_mul, Nat.mul_comm]; omega)
  have e4 : x / d = b' := Nat.div_eq_of_lt_le (by rw [Nat.mul_comm]; omega)
    (by rw [Nat.succ_mul, Nat.mul_comm]; omega)
  have haa : a = a' := e1.symm.trans e2
  have hbb : b = b' := e3.symm.trans e4
  cases p; cases q
  simp only at ha hb ha' hb' ⊢
  rw [ha, hb, ha', hb', haa, hbb]

/-- The stitch grid loop succeeds and is a plain fold of pastes when
every grid cell is indexed and its tile file opens as an RGBA image. -/
theorem stitch_fold_ok {index : List (Nat × Nat)} {d : Nat} {fs : FS}
    {T : Nat × Nat → Nat → Nat → Nat × Nat × Nat × Nat} :
    ∀ (l : List (Nat × Nat)) (c : Canvas),
      (∀ p ∈ l, p ∈ index) →
      (∀ p ∈ l, fsLookup fs (encodeName ['r', 'g', 'b', 'a'] p.1 p.2 tiffExt) =
        some (Img.rgba (T p))) →
      l.foldlM (stitch_tiles index d fs) c =
        .ok (l.foldl (fun c p => paste c (T p) p.1 p.2 d) c) := by
  intro l
  induction l with
  | nil => intro c _ _; rfl
  | cons q rest ih =>
    intro c hidx hlook
    rw [List.foldlM_cons, List.foldl_cons]
    have hstep : stitch_tiles index d fs c q = .ok (paste c (T q) q.1 q.2 d) := by
      unfold stitch_tiles
      rw [if_pos (hidx q (List.mem_cons_self q rest)),
        hlook q (List.mem_cons_self q rest)]
    rw [hstep]
    show rest.foldlM (stitch_tiles index d fs) (paste c (T q) q.1 q.2 d) = _
    exact ih _ (fun p hp => hidx p (List.mem_cons_of_mem q hp))
      (fun p hp => hlook p (List.mem_cons_of_mem q hp))

/-- The directory after the three color tilers ran without a skip. -/
def threeStage (rA gA bA : Nat → Nat → Nat) (h w d : Nat) : FS :=
  ((grid h w d).map (chanEntry ['b'] bA)).reverse ++
    (((grid h w d).map (chanEntry ['g'] gA)).reverse ++
      (((grid h w d).map (chanEntry ['r'] rA)).reverse ++ []))

theorem mem_threeStage {rA gA bA : Nat → Nat → Nat} {h w d : Nat}
    {e : FName × Img} :
    e ∈ threeStage rA gA bA h w d ↔
      ∃ p ∈ grid h w d, e = chanEntry ['r'] rA p ∨ e = chanEntry ['g'] gA p ∨
        e = chanEntry ['b'] bA p := by
  unfold threeStage
  simp only [List.mem_append, List.mem_reverse, List.mem_map, List.not_mem_nil,
    or_false]
  constructor
  · rintro (⟨p, hp, rfl⟩ | ⟨p, hp, rfl⟩ | ⟨p, hp, rfl⟩)
    · exact ⟨p, hp, Or.inr (Or.inr rfl)⟩
    · exact ⟨p, hp, Or.inr (Or.inl rfl)⟩
    · exact ⟨p, hp, Or.inl rfl⟩
  · rintro ⟨p, hp, rfl | rfl | rfl⟩
    · exact Or.inr (Or.inr ⟨p, hp, rfl⟩)
    · exact Or.inr (Or.inl ⟨p, hp, rfl⟩)
    · exact Or.inl ⟨p, hp, rfl⟩

/-! ### Claim C3: the tile/stitch round trip -/

/-- C3 (amended): tiling a `w × h` 8-bit RGBA raster at dimension
`d > 5` through the full `generate_tiles` pipeline and stitching the
resulting `rgba` tiles back with the same `(w, h, d)` reproduces the
original pixel values on the partitioned region
`[0, h - h % d) × [0, w - w % d)` and leaves the dropped remainder strip
transparent — **provided no color-channel crop at a grid cell is
uniformly 255 (white)** and the raster is at least `d` in each dimension.
(A uniformly white color crop is skipped by the blank-skip rule and its
cell then stitches back transparent, so the unconditional round trip
claimed does not hold, see the counterexample; and when `h < d` or
`w < d` no tile at all is produced, so `Stitcher.__init__` rejects the
empty folder.) -/
theorem tile_stitch_round_trip (rA gA bA aA : Nat → Nat → Nat) (h w d : Nat)
    (hd : 5 < d) (hdh : d ≤ h) (hdw : d ≤ w)
    (hbr : ∀ y < h, ∀ x < w, rA y x ≤ 255)
    (hbg : ∀ y < h, ∀ x < w, gA y x ≤ 255)
    (hbb : ∀ y < h, ∀ x < w, bA y x ≤ 255)
    (hnr : ∀ p ∈ grid h w d, ∃ y < d, ∃ x < d, rA (p.1 + y) (p.2 + x) ≠ 255)
    (hng : ∀ p ∈ grid h w d, ∃ y < d, ∃ x < d, gA (p.1 + y) (p.2 + x) ≠ 255)
    (hnb2 : ∀ p ∈ grid h w d, ∃ y < d, ∃ x < d, bA (p.1 + y) (p.2 + x) ≠ 255) :
    ∃ fs, generateTilesFS rA gA bA aA h w d = some fs ∧
      ∃ canvas, stitchPipeline fs w h d = some canvas ∧
        ∀ x < w, ∀ y < h,
          canvas x y = if y < h - h % d ∧ x < w - w % d
            then (rA y x, gA y x, bA y x, aA y x) else (0, 0, 0, 0) := by
  have hd0 : 0 < d := by omega
  have hsr := saveCond_all hd0 hbr hnr
  have hsg := saveCond_all hd0 hbg hng
  have hsb := saveCond_all hd0 hbb hnb2
  -- the directory after the three color channels
  have hthree : tile_rgb bA h w d ['b'] (tile_rgb gA h w d ['g']
      (tile_rgb rA h w d ['r'] [])) = threeStage rA gA bA h w d := by
    rw [tile_rgb_all _ _ hsb, tile_rgb_all _ _ hsg, tile_rgb_all _ _ hsr]
    rfl
  -- the scan that feeds the alpha tiler
  have hs3succ : ∀ n ∈ (threeStage rA gA bA h w d).map Prod.fst,
      matchRStar n = true → (decodeName n).isSome := by
    intro n hn _
    rw [List.mem_map] at hn
    obtain ⟨e, he, rfl⟩ := hn
    obtain ⟨p, hp, hcase⟩ := mem_threeStage.mp he
    rcases hcase with rfl | rfl | rfl <;>
      (show (decodeName (encodeName _ p.1 p.2 tiffExt)).isSome = true
       rw [decodeName_encodeName (by decide)]
       rfl)
  obtain ⟨L1, hL1⟩ := get_img_filelist_isSome hs3succ
  have hL1mem : ∀ q, q ∈ L1 ↔ q ∈ grid h w d := by
    intro q
    rw [mem_get_img_filelist hL1 q]
    constructor
    · rintro ⟨n, hn, hmatch, hdec⟩
      rw [List.mem_map] at hn
      obtain ⟨e, he, rfl⟩ := hn
      obtain ⟨p, hp, hcase⟩ := mem_threeStage.mp he
      rcases hcase with rfl | rfl | rfl
      · rw [show (chanEntry ['r'] rA p).1 = encodeName ['r'] p.1 p.2 tiffExt from rfl,
          decodeName_encodeName (by decide)] at hdec
        have hpq : (p.1, p.2) = q := by injection hdec
        rw [← hpq, Prod.mk.eta]
        exact hp
      · rw [show (chanEntry ['g'] gA p).1 = encodeName ['g'] p.1 p.2 tiffExt from rfl,
          matchRStar_not_r [] (by decide) p.1 p.2] at hmatch
        exact absurd hmatch (by simp)
      · rw [show (chanEntry ['b'] bA p).1 = encodeName ['b'] p.1 p.2 tiffExt from rfl,
          matchRStar_not_r [] (by decide) p.1 p.2] at hmatch
        exact absurd hmatch (by simp)
    · intro hq
      refine ⟨(chanEntry ['r'] rA q).1, ?_, ?_, ?_⟩
      · rw [List.mem_map]
        exact ⟨chanEntry ['r'] rA q, mem_threeStage.mpr ⟨q, hq, Or.inl rfl⟩, rfl⟩
      · exact matchRStar_r q.1 q.2
      · show decodeName (encodeName ['r'] q.1 q.2 tiffExt) = some q
        rw [decodeName_encodeName (by decide), Prod.mk.eta]
  -- the directory after the alpha channel
  have hfour : tile_alpha L1 aA h w d ['a'] (threeStage rA gA bA h w d) =
      fourStage rA gA bA aA h w d := by
    rw [tile_alpha_all _ _ fun p hp => (hL1mem p).mpr hp]
    rfl
  -- the scan that feeds the merge
  have hs4succ : ∀ n ∈ (fourStage rA gA bA aA h w d).map Prod.fst,
      matchRStar n = true → (decodeName n).isSome := by
    intro n hn _
    rw [List.mem_map] at hn
    obtain ⟨e, he, rfl⟩ := hn
    obtain ⟨p, hp, hcase⟩ := mem_fourStage.mp he
    rcases hcase with rfl | rfl | rfl | rfl <;>
      (show (decodeName (encodeName _ p.1 p.2 tiffExt)).isSome = true
       rw [decodeName_encodeName (by decide)]
       rfl)
  obtain ⟨L2, hL2⟩ := get_img_filelist_isSome hs4succ
  have hL2mem : ∀ q, q ∈ L2 ↔ q ∈ grid h w d := by
    intro q
    rw [mem_get_img_filelist hL2 q]
    constructor
    · rintro ⟨n, hn, hmatch, hdec⟩
      rw [List.mem_map] at hn
      obtain ⟨e, he, rfl⟩ := hn
      obtain ⟨p, hp, hcase⟩ := mem_fourStage.mp he
      rcases hcase with rfl | rfl | rfl | rfl
      · rw [show (chanEntry ['r'] rA p).1 = encodeName ['r'] p.1 p.2 tiffExt from rfl,
          decodeName_encodeName (by decide)] at hdec
        have hpq : (p.1, p.2) = q := by injection hdec
        rw [← hpq, Prod.mk.eta]
        exact hp
      · rw [show (chanEntry ['g'] gA p).1 = encodeName ['g'] p.1 p.2 tiffExt from rfl,
          matchRStar_not_r [] (by decide) p.1 p.2] at hmatch
        exact absurd hmatch (by simp)
      · rw [show (chanEntry ['b'] bA p).1 = encodeName ['b'] p.1 p.2 tiffExt from rfl,
          matchRStar_not_r [] (by decide) p.1 p.2] at hmatch
        exact absurd hmatch (by simp)
      · rw [show (chanEntry ['a'] aA p).1 = encodeName ['a'] p.1 p.2 tiffExt from rfl,
          matchRStar_not_r [] (by decide) p.1 p.2] at hmatch
        exact absurd hmatch (by simp)
    · intro hq
      refine ⟨(chanEntry ['r'] rA q).1, ?_, ?_, ?_⟩
      · rw [List.mem_map]
        exact ⟨chanEntry ['r'] rA q, mem_fourStage.mpr ⟨q, hq, Or.inl rfl⟩, rfl⟩
      · exact matchRStar_r q.1 q.2
      · show decodeName (encodeName ['r'] q.1 q.2 tiffExt) = some q
        rw [decodeName_encodeName (by decide), Prod.mk.eta]
  -- the merge succeeds on the complete channel set
  have hmerge := channels_to_RGBA_ok L2 (fourStage rA gA bA aA h w d)
    (fun p hp => fourStage_lookup ['r'] rA (Or.inl ⟨rfl, rfl⟩) ((hL2mem p).mp hp))
    (fun p hp => fourStage_lookup ['g'] gA (Or.inr (Or.inl ⟨rfl, rfl⟩)) ((hL2mem p).mp hp))
    (fun p hp => fourStage_lookup ['b'] bA (Or.inr (Or.inr (Or.inl ⟨rfl, rfl⟩)))
      ((hL2mem p).mp hp))
    (fun p hp => fourStage_lookup ['a'] aA (Or.inr (Or.inr (Or.inr ⟨rfl, rfl⟩)))
      ((hL2mem p).mp hp))
  have hmerge' : channels_to_RGBA L2 (fourStage rA gA bA aA h w d) =
      .ok ((L2.map (rgbaEntry rA gA bA aA)).reverse ++ fourStage rA gA bA aA h w d) :=
    hmerge
  -- the final directory
  have hmem5 : ∀ e : FName × Img,
      e ∈ (L2.map (rgbaEntry rA gA bA aA)).reverse ++ fourStage rA gA bA aA h w d ↔
        (∃ p ∈ L2, e = rgbaEntry rA gA bA aA p) ∨ e ∈ fourStage rA gA bA aA h w d := by
    intro e
    rw [List.mem_append, List.mem_reverse, List.mem_map]
    constructor
    · rintro (⟨p, hp, hpe⟩ | he)
      · exact Or.inl ⟨p, hp, hpe.symm⟩
      · exact Or.inr he
    · rintro (⟨p, hp, hpe⟩ | he)
      · exact Or.inl ⟨p, hp, hpe.symm⟩
      · exact Or.inr he
  have hgen : generateTilesFS rA gA bA aA h w d = some (delete_channel_files noFail L2
      ((L2.map (rgbaEntry rA gA bA aA)).reverse ++ fourStage rA gA bA aA h w d)) := by
    unfold generateTilesFS
    dsimp only
    rw [hthree, hL1]
    dsimp only
    rw [hfour, hL2]
    dsimp only
    rw [hmerge']
  -- the stitcher's index over the final directory
  have hsFsucc : ∀ n ∈ (delete_channel_files noFail L2
      ((L2.map (rgbaEntry rA gA bA aA)).reverse ++
        fourStage rA gA bA aA h w d)).map Prod.fst,
      matchRgbaStarTiff n = true → (decodeName n).isSome := by
    intro n hn _
    rw [List.mem_map] at hn
    obtain ⟨e, he, rfl⟩ := hn
    have he5 := (mem_delete_channel_files.mp he).1
    rcases (hmem5 e).mp he5 with ⟨p, hp, rfl⟩ | he4
    · show (decodeName (encodeName ['r', 'g', 'b', 'a'] p.1 p.2 tiffExt)).isSome = true
      rw [decodeName_encodeName (by decide)]
      rfl
    · obtain ⟨p, hp, hcase⟩ := mem_fourStage.mp he4
      rcases hcase with rfl | rfl | rfl | rfl <;>
        (show (decodeName (encodeName _ p.1 p.2 tiffExt)).isSome = true
         rw [decodeName_encodeName (by decide)]
         rfl)
  obtain ⟨M, hM⟩ := get_img_filelist_isSome hsFsucc
  have hrgbaSurv : ∀ p ∈ grid h w d, rgbaEntry rA gA bA aA p ∈
      delete_channel_files noFail L2
        ((L2.map (rgbaEntry rA gA bA aA)).reverse ++ fourStage rA gA bA aA h w d) := by
    intro p hp
    apply mem_delete_channel_files.mpr
    refine ⟨(hmem5 _).mpr (Or.inl ⟨p, (hL2mem p).mpr hp, rfl⟩), ?_⟩
    rintro ⟨q, hq, ch, hch, hn⟩
    fin_cases hch <;>
      exact absurd (rgbaEntry_name_inj (by decide) hn).1 (by decide)
  have hMmem : ∀ q, q ∈ M ↔ q ∈ grid h w d := by
    intro q
    rw [mem_get_img_filelist hM q]
    constructor
    · rintro ⟨n, hn, hmatch, hdec⟩
      rw [List.mem_map] at hn
      obtain ⟨e, he, rfl⟩ := hn
      have he5 := (mem_delete_channel_files.mp he).1
      rcases (hmem5 e).mp he5 with ⟨p, hp, rfl⟩ | he4
      · rw [show (rgbaEntry rA gA bA aA p).1 =
            encodeName ['r', 'g', 'b', 'a'] p.1 p.2 tiffExt from rfl,
          decodeName_encodeName (by decide)] at hdec
        have hpq : (p.1, p.2) = q := by injection hdec
        rw [← hpq, Prod.mk.eta]
        exact (hL2mem p).mp hp
      · obtain ⟨p, hp, hcase⟩ := mem_fourStage.mp he4
        rcases hcase with rfl | rfl | rfl | rfl
        · rw [show (chanEntry ['r'] rA p).1 = encodeName ['r'] p.1 p.2 tiffExt from rfl,
            matchRgbaStarTiff_chan_false (by decide) p.1 p.2] at hmatch
          exact absurd hmatch (by simp)
        · rw [show (chanEntry ['g'] gA p).1 = encodeName ['g'] p.1 p.2 tiffExt from rfl,
            matchRgbaStarTiff_chan_false (by decide) p.1 p.2] at hmatch
          exact absurd hmatch (by simp)
        · rw [show (chanEntry ['b'] bA p).1 = encodeName ['b'] p.1 p.2 tiffExt from rfl,
            matchRgbaStarTiff_chan_false (by decide) p.1 p.2] at hmatch
          exact absurd hmatch (by simp)
        · rw [show (chanEntry ['a'] aA p).1 = encodeName ['a'] p.1 p.2 tiffExt from rfl,
            matchRgbaStarTiff_chan_false (by decide) p.1 p.2] at hmatch
          exact absurd hmatch (by simp)
    · intro hq
      refine ⟨(rgbaEntry rA gA bA aA q).1, ?_, ?_, ?_⟩
      · rw [List.mem_map]
        exact ⟨_, hrgbaSurv q hq, rfl⟩
      · exact matchRgbaStarTiff_rgba q.1 q.2
      · show decodeName (encodeName ['r', 'g', 'b', 'a'] q.1 q.2 tiffExt) = some q
        rw [decodeName_encodeName (by decide), Prod.mk.eta]
  -- every tile file opens during stitching
  have hlookF : ∀ p ∈ grid h w d,
      fsLookup (delete_channel_files noFail L2
          ((L2.map (rgbaEntry rA gA bA aA)).reverse ++ fourStage rA gA bA aA h w d))
        (encodeName ['r', 'g', 'b', 'a'] p.1 p.2 tiffExt) =
      some (Img.rgba (mergeRGBA (crop rA p.1 p.2) (crop gA p.1 p.2)
        (crop bA p.1 p.2) (crop aA p.1 p.2))) := by
    intro p hp
    apply fsLookup_of_mem_unique_val
    · exact hrgbaSurv p hp
    · intro e he hn
      have he5 := (mem_delete_channel_files.mp he).1
      rcases (hmem5 e).mp he5 with ⟨q, hq, rfl⟩ | he4
      · obtain ⟨-, hqp⟩ := rgbaEntry_name_inj (by decide) hn
        subst hqp
        rfl
      · obtain ⟨q, hq2, hcase⟩ := mem_fourStage.mp he4
        rcases hcase with rfl | rfl | rfl | rfl <;>
          exact absurd (chanEntry_name_inj (by decide) (by decide) hn).1 (by decide)
  -- the stitch loop is a fold of pastes
  have hstitchC : stitchCanvas (delete_channel_files noFail L2
      ((L2.map (rgbaEntry rA gA bA aA)).reverse ++ fourStage rA gA bA aA h w d))
      w h d M =
      .ok ((grid h w d).foldl (fun c p => paste c (mergeRGBA (crop rA p.1 p.2)
        (crop gA p.1 p.2) (crop bA p.1 p.2) (crop aA p.1 p.2)) p.1 p.2 d)
        emptyCanvas) := by
    unfold stitchCanvas
    exact stitch_fold_ok (grid h w d) emptyCanvas (fun p hp => (hMmem p).mpr hp) hlookF
  -- at least one tile was produced, so the folder is non-empty
  have hp00 : (0, 0) ∈ grid h w d := by
    apply (mem_grid hd0).mpr
    have h1 : 0 < h / d := Nat.div_pos hdh hd0
    have h2 : 0 < w / d := Nat.div_pos hdw hd0
    have hh0 : 0 < h - h % d := by
      have he : h - h % d = d * (h / d) := by
        have := Nat.div_add_mod h d
        omega
      rw [he]
      exact Nat.mul_pos hd0 h1
    have hw0 : 0 < w - w % d := by
      have he : w - w % d = d * (w / d) := by
        have := Nat.div_add_mod w d
        omega
      rw [he]
      exact Nat.mul_pos hd0 h2
    exact ⟨dvd_zero d, hh0, dvd_zero d, hw0⟩
  have hFne : ¬((delete_channel_files noFail L2
      ((L2.map (rgbaEntry rA gA bA aA)).reverse ++
        fourStage rA gA bA aA h w d)).isEmpty = true) := by
    intro hemp
    have hmem0 := hrgbaSurv (0, 0) hp00
    rw [List.isEmpty_iff.mp hemp] at hmem0
    exact List.not_mem_nil _ hmem0
  have hpipe : stitchPipeline (delete_channel_files noFail L2
      ((L2.map (rgbaEntry rA gA bA aA)).reverse ++ fourStage rA gA bA aA h w d))
      w h d =
      some ((grid h w d).foldl (fun c p => paste c (mergeRGBA (crop rA p.1 p.2)
        (crop gA p.1 p.2) (crop bA p.1 p.2) (crop aA p.1 p.2)) p.1 p.2 d)
        emptyCanvas) := by
    unfold stitchPipeline
    rw [if_neg hFne, hM]
    dsimp only
    rw [hstitchC]
  refine ⟨_, hgen, _, hpipe, ?_⟩
  intro x hx y hy
  have hydm := Nat.div_add_mod y d
  have hxdm := Nat.div_add_mod x d
  have hymod : y % d < d := Nat.mod_lt y hd0
  have hxmod : x % d < d := Nat.mod_lt x hd0
  have hhd : h - h % d = d * (h / d) := by
    have := Nat.div_add_mod h d
    omega
  have hwd : w - w % d = d * (w / d) := by
    have := Nat.div_add_mod w d
    omega
  by_cases hin : y < h - h % d ∧ x < w - w % d
  · rw [if_pos hin]
    have hp0grid : (d * (y / d), d * (x / d)) ∈ grid h w d := by
      apply (mem_grid hd0).mpr
      refine ⟨⟨y / d, rfl⟩, ?_, ⟨x / d, rfl⟩, ?_⟩
      · rw [hhd]
        have h1 : y / d < h / d := by
          apply (Nat.div_lt_iff_lt_mul hd0).mpr
          rw [Nat.mul_comm]
          omega
        exact (Nat.mul_lt_mul_left hd0).mpr h1
      · rw [hwd]
        have h1 : x / d < w / d := by
          apply (Nat.div_lt_iff_lt_mul hd0).mpr
          rw [Nat.mul_comm]
          omega
        exact (Nat.mul_lt_mul_left hd0).mpr h1
    have hcov : covers d (d * (y / d), d * (x / d)) x y := by
      show d * (x / d) ≤ x ∧ x < d * (x / d) + d ∧ d * (y / d) ≤ y ∧ y < d * (y / d) + d
      omega
    have huniq : ∀ p ∈ grid h w d, covers d p x y → p = (d * (y / d), d * (x / d)) := by
      intro p hp hc
      have hal := (mem_grid hd0).mp (show (p.1, p.2) ∈ grid h w d by rwa [Prod.mk.eta])
      exact covers_unique hd0 ⟨hal.1, hal.2.2.1⟩ ⟨⟨y / d, rfl⟩, ⟨x / d, rfl⟩⟩ hc hcov
    rw [foldl_paste_covered (grid h w d) emptyCanvas huniq hp0grid hcov]
    show mergeRGBA (crop rA (d * (y / d)) (d * (x / d))) (crop gA (d * (y / d)) (d * (x / d)))
        (crop bA (d * (y / d)) (d * (x / d))) (crop aA (d * (y / d)) (d * (x / d)))
        (y - d * (y / d)) (x - d * (x / d)) = (rA y x, gA y x, bA y x, aA y x)
    unfold mergeRGBA crop
    rw [Nat.add_sub_cancel' (show d * (y / d) ≤ y by omega),
      Nat.add_sub_cancel' (show d * (x / d) ≤ x by omega)]
  · rw [if_neg hin]
    have hnocov : ∀ p ∈ grid h w d, ¬covers d p x y := by
      intro p hp hc
      have hb := grid_cell_bound hd0 (show (p.1, p.2) ∈ grid h w d by rwa [Prod.mk.eta])
      obtain ⟨h1, h2, h3, h4⟩ := hc
      exact hin ⟨by omega, by omega⟩
    rw [foldl_paste_untouched (grid h w d) emptyCanvas hnocov]
    rfl

/-- Counterexample to C3 as stated: a 6×12 raster at `d = 6` whose
**red** channel is uniformly white (255) on the grid cell `(0, 6)` while
the other channels are not.  The blank-skip drops `r_0_6.tiff`, the
alpha tiler and the merge follow the red channel's sparsity, so no
`rgba_0_6.tiff` exists; the stitch succeeds (the folder still holds
`rgba_0_0.tiff`) but leaves pixel `(x, y) = (6, 0)` transparent
`(0, 0, 0, 0)`, although it lies inside the partitioned region
`[0, 6) × [0, 12)` and the original pixel there is `(255, 7, 1, 7)`. -/
theorem round_trip_fails_on_partially_white_image :
    (((generateTilesFS (fun y x => if x < 6 then y + x else 255)
          (fun y x => y + x + 1) (fun y _ => y + 1) (fun _ _ => 7) 6 12 6).bind
        fun fs => stitchPipeline fs 12 6 6).map fun c => c 6 0) = some (0, 0, 0, 0)
    ∧ ((fun (y x : Nat) => if x < 6 then y + x else 255) 0 6,
        (fun (y x : Nat) => y + x + 1) 0 6, (fun (y _ : Nat) => y + 1) 0 6,
        (fun (_ _ : Nat) => 7) 0 6) ≠ ((0, 0, 0, 0) : Nat × Nat × Nat × Nat)
    ∧ (0 : Nat) < 6 - 6 % 6 ∧ (6 : Nat) < 12 - 12 % 6 := by
  refine ⟨by decide, by decide, by decide, by decide⟩

/-- Witness for C3 on a 7×7 raster at `d = 6` (so rows/cols 6 form a
dropped remainder strip), with four distinct non-white channels. -/
theorem tile_stitch_round_trip_witness :
    ∃ fs, generateTilesFS (fun y x => y + x) (fun y x => 2 * y + x)
        (fun y _ => y) (fun _ x => x) 7 7 6 = some fs ∧
      ∃ canvas, stitchPipeline fs 7 7 6 = some canvas ∧
        ∀ x < 7, ∀ y < 7,
          canvas x y = if y < 7 - 7 % 6 ∧ x < 7 - 7 % 6
            then (y + x, 2 * y + x, y, x) else (0, 0, 0, 0) :=
  tile_stitch_round_trip (fun y x => y + x) (fun y x => 2 * y + x)
    (fun y _ => y) (fun _ x => x) 7 7 6 (by decide) (by decide) (by decide)
    (by decide) (by decide) (by decide) (by decide) (by decide) (by decide)

end Orthotile

